import Mathlib

/-!
# Verification of the lineage-glass column-level SQL lineage analyzer

This development shallowly embeds the core data model and algorithms of the
`lineage_analyzer` Python package and proves (or refutes) the behavioural
claims of its specification.

Modelling conventions:
* Python strings are modelled as lists of Unicode code points (`PyStr :=
  List Nat`); `str` converts a Lean string literal to this representation.
  `str.strip()` and `str.lower()` are modelled by `pyStrip` / `pyLower`
  (ASCII case mapping, as used by the analyzer's table names).
* Python `dict`s (which preserve insertion order, and on update of an
  existing key keep its position while replacing the value) are modelled by
  association lists with the helpers `pyDictSet`, `pyDictGet`, etc.
* `float` confidences are modelled as rationals; the analyzer only ever
  assigns the constants 1.0, 0.95, 0.8, 0.6, 0.5, 0.3 and multiplies by 0.9.
* Code that can raise is modelled in `Except`; a raised exception is
  `Except.error`.
-/

namespace LineageGlass

/-- A Python string, as a list of Unicode code points. -/
abbrev PyStr := List Nat

/-- Convert a Lean string literal to its code-point list. -/
def str (s : String) : PyStr := s.data.map Char.toNat

/-- `str.lower()` on a single code point (ASCII case mapping `A`-`Z`). -/
def pyLowerCode (n : Nat) : Nat := if 65 ≤ n ∧ n ≤ 90 then n + 32 else n

/-- `str.lower()` on a whole string. -/
def pyLower (s : PyStr) : PyStr := s.map pyLowerCode

/-- Python whitespace test used by `str.strip()`:
space, tab, newline, carriage return, vertical tab, form feed. -/
def pySpace (n : Nat) : Bool :=
  decide (n = 32 ∨ n = 9 ∨ n = 10 ∨ n = 13 ∨ n = 11 ∨ n = 12)

/-- Drop trailing code points satisfying `p`. -/
def dropTrailingWhile (p : Nat → Bool) : PyStr → PyStr
  | [] => []
  | c :: cs =>
    match dropTrailingWhile p cs with
    | [] => if p c then [] else [c]
    | r => c :: r

/-- `str.strip()`: remove leading and trailing whitespace. -/
def pyStrip (s : PyStr) : PyStr := dropTrailingWhile pySpace (s.dropWhile pySpace)

theorem dropTrailingWhile_cons (p : Nat → Bool) (c : Nat) (cs : PyStr) :
    dropTrailingWhile p (c :: cs) =
      match dropTrailingWhile p cs with
      | [] => if p c then [] else [c]
      | r => c :: r := rfl

theorem pyLowerCode_idem (n : Nat) : pyLowerCode (pyLowerCode n) = pyLowerCode n := by
  unfold pyLowerCode
  split <;> rename_i h
  · have h2 : ¬ (65 ≤ n + 32 ∧ n + 32 ≤ 90) := by omega
    rw [if_neg h2]
  · rfl

theorem pyLower_idem (s : PyStr) : pyLower (pyLower s) = pyLower s := by
  unfold pyLower
  rw [List.map_map]
  apply List.map_congr_left
  intro n _
  exact pyLowerCode_idem n

theorem pySpace_pyLowerCode (n : Nat) : pySpace (pyLowerCode n) = pySpace n := by
  unfold pyLowerCode pySpace
  split <;> rename_i h
  · rw [decide_eq_decide]
    omega
  · rfl

theorem dropWhile_pySpace_pyLower (s : PyStr) :
    (pyLower s).dropWhile pySpace = pyLower (s.dropWhile pySpace) := by
  induction s with
  | nil => rfl
  | cons c cs ih =>
    simp only [pyLower, List.map_cons, List.dropWhile_cons, pySpace_pyLowerCode]
    by_cases h : pySpace c = true
    · simpa [h, pyLower] using ih
    · simp [h, pyLower]

theorem dropTrailingWhile_pySpace_pyLower (s : PyStr) :
    dropTrailingWhile pySpace (pyLower s) = pyLower (dropTrailingWhile pySpace s) := by
  induction s with
  | nil => rfl
  | cons c cs ih =>
    have hc : pyLower (c :: cs) = pyLowerCode c :: pyLower cs := rfl
    rw [hc, dropTrailingWhile_cons, dropTrailingWhile_cons, ih]
    cases h : dropTrailingWhile pySpace cs with
    | nil =>
      simp only [pyLower, List.map_nil, pySpace_pyLowerCode]
      by_cases hs : pySpace c = true <;> simp [hs, pyLower]
    | cons d ds => simp [pyLower]

theorem pyStrip_pyLower (s : PyStr) : pyStrip (pyLower s) = pyLower (pyStrip s) := by
  unfold pyStrip
  rw [dropWhile_pySpace_pyLower, dropTrailingWhile_pySpace_pyLower]

theorem dropWhile_idem (p : Nat → Bool) (s : PyStr) :
    (s.dropWhile p).dropWhile p = s.dropWhile p := by
  induction s with
  | nil => rfl
  | cons c cs ih =>
    by_cases h : p c = true
    · simpa [List.dropWhile_cons, h] using ih
    · simp [List.dropWhile_cons, h]

theorem dropTrailingWhile_idem (p : Nat → Bool) (s : PyStr) :
    dropTrailingWhile p (dropTrailingWhile p s) = dropTrailingWhile p s := by
  induction s with
  | nil => rfl
  | cons c cs ih =>
    rw [dropTrailingWhile_cons]
    cases h : dropTrailingWhile p cs with
    | nil =>
      by_cases hc : p c = true
      · simp [hc, dropTrailingWhile]
      · simp [hc, dropTrailingWhile]
    | cons d ds =>
      rw [h] at ih
      rw [dropTrailingWhile_cons, ih]

/-- If a list has no leading `p`-prefix, neither does its tail-stripped form. -/
theorem dropWhile_dropTrailingWhile_of_dropWhile_eq (p : Nat → Bool) (s : PyStr)
    (h : s.dropWhile p = s) :
    (dropTrailingWhile p s).dropWhile p = dropTrailingWhile p s := by
  cases s with
  | nil => rfl
  | cons c cs =>
    have hc : p c = false := by
      rw [List.dropWhile_eq_self_iff] at h
      have hcc := h (by simp)
      simpa using hcc
    rw [dropTrailingWhile_cons]
    cases hr : dropTrailingWhile p cs with
    | nil => simp [hc]
    | cons d ds => simp [List.dropWhile_cons, hc]

theorem pyStrip_idem (s : PyStr) : pyStrip (pyStrip s) = pyStrip s := by
  unfold pyStrip
  rw [dropWhile_dropTrailingWhile_of_dropWhile_eq pySpace _ (dropWhile_idem pySpace s),
    dropTrailingWhile_idem]

/-- `TableRegistry._normalize_table_name`: `name.strip().lower()`. -/
def normalizeTableName (s : PyStr) : PyStr := pyLower (pyStrip s)

theorem normalizeTableName_idem (s : PyStr) :
    normalizeTableName (normalizeTableName s) = normalizeTableName s := by
  unfold normalizeTableName
  rw [pyStrip_pyLower, pyLower_idem, pyStrip_idem]

/-! ## Python dict helpers (insertion-ordered association lists) -/

/-- `d[k]` lookup (`None` when absent). -/
def pyDictGet {α : Type} (d : List (PyStr × α)) (k : PyStr) : Option α :=
  (d.find? (fun e => decide (e.1 = k))).map (·.2)

/-- `k in d`. -/
def pyDictContains {α : Type} (d : List (PyStr × α)) (k : PyStr) : Bool :=
  (pyDictGet d k).isSome

/-- `d[k] = v`: replace in place when the key exists, else append. -/
def pyDictSet {α : Type} : List (PyStr × α) → PyStr → α → List (PyStr × α)
  | [], k, v => [(k, v)]
  | (k1, v1) :: rest, k, v =>
    if k1 = k then (k1, v) :: rest else (k1, v1) :: pyDictSet rest k v

/-- `del d[k]` (no-op when absent; Python would raise, the analyzer always
checks membership first). -/
def pyDictDelete {α : Type} : List (PyStr × α) → PyStr → List (PyStr × α)
  | [], _ => []
  | (k1, v1) :: rest, k =>
    if k1 = k then rest else (k1, v1) :: pyDictDelete rest k

/-- `d.values()`. -/
def pyDictValues {α : Type} (d : List (PyStr × α)) : List α := d.map (·.2)

/-- Python truthiness of an optional string: `None` and `""` are falsy. -/
def truthy : Option PyStr → Bool
  | some s => !s.isEmpty
  | none => false

/-! ## Core data model -/

/-- `ExpressionType` (`models/dependency.py`). -/
inductive ExpressionType where
  | direct
  | computed
  | function
  | caseWhen
  | aggregation
  | window
deriving Repr, DecidableEq

/-- `ColumnRef` (`models/column.py`). The Python field `alias` is called
`colAlias` here (`alias` is a Lean keyword); Python equality and hashing
ignore it. -/
structure ColumnRef where
  table : PyStr
  column : PyStr
  database : Option PyStr := none
  schema : Option PyStr := none
  colAlias : Option PyStr := none
deriving Repr, DecidableEq

/-- `ColumnRef.to_qualified_name`: join the truthy parts with dots. -/
def ColumnRef.toQualifiedName (c : ColumnRef) : PyStr :=
  List.intercalate (str ".")
    ((if truthy c.database then [c.database.getD []] else [])
      ++ (if truthy c.schema then [c.schema.getD []] else [])
      ++ [c.table, c.column])

/-- Python `==` on `ColumnRef` (alias excluded). -/
def ColumnRef.pyEq (a b : ColumnRef) : Bool :=
  decide (a.database = b.database ∧ a.schema = b.schema
    ∧ a.table = b.table ∧ a.column = b.column)

/-- `TableRef` (`models/table.py`); `alias` is called `tblAlias` here. -/
structure TableRef where
  table : PyStr
  database : Option PyStr := none
  schema : Option PyStr := none
  tblAlias : Option PyStr := none
  is_subquery : Bool := false
deriving Repr, DecidableEq

/-- `TableRef.to_qualified_name`. -/
def TableRef.toQualifiedName (t : TableRef) : PyStr :=
  List.intercalate (str ".")
    ((if truthy t.database then [t.database.getD []] else [])
      ++ (if truthy t.schema then [t.schema.getD []] else [])
      ++ [t.table])

/-- `ColumnLineage` (`models/column_lineage.py`). The only metadata key the
analyzer uses, `metadata["alternative_expressions"]`, is modelled directly
as the list `altExpressions` (initially empty, matching an absent key). -/
structure ColumnLineage where
  name : PyStr
  data_type : Option PyStr := none
  sources : List ColumnRef := []
  expression : Option PyStr := none
  expression_type : ExpressionType := .direct
  confidence : ℚ := 1
  altExpressions : List PyStr := []
  is_aggregate : Bool := false
  aggregate_function : Option PyStr := none
  is_group_by : Bool := false
deriving Repr, DecidableEq

/-- `ColumnLineage.add_source`: append unless a source with the same
qualified name is already present. -/
def ColumnLineage.addSource (cl : ColumnLineage) (s : ColumnRef) : ColumnLineage :=
  if cl.sources.any (fun t => decide (t.toQualifiedName = s.toQualifiedName)) then cl
  else { cl with sources := cl.sources ++ [s] }

/-- The merging work of `ColumnLineage.merge_from` (after the name check). -/
def ColumnLineage.mergeFromFn (self other : ColumnLineage) : ColumnLineage :=
  let cl1 := other.sources.foldl ColumnLineage.addSource self
  let cl2 :=
    if truthy other.expression then
      { cl1 with altExpressions := cl1.altExpressions ++ [other.expression.getD []] }
    else cl1
  { cl2 with confidence := min cl2.confidence (other.confidence * (9 / 10)) }

/-- `ColumnLineage.merge_from`: raises `ValueError` when the names differ. -/
def ColumnLineage.mergeFrom (self other : ColumnLineage) : Except PyStr ColumnLineage :=
  if other.name ≠ self.name then
    .error (str "Cannot merge different columns")
  else
    .ok (self.mergeFromFn other)

/-- `TableType` (`models/table_definition.py`). -/
inductive TableType where
  | table
  | view
  | tempTable
  | cte
  | external
  | subquery
deriving Repr, DecidableEq

/-- `TableDefinition` (`models/table_definition.py`); `columns` is an
insertion-ordered dict from column name to `ColumnLineage`. -/
structure TableDefinition where
  name : PyStr
  columns : List (PyStr × ColumnLineage) := []
  table_type : Option TableType := none
  created_by_sql : Option PyStr := none
  created_at_statement : Option Nat := none
  is_source_table : Bool := false
  is_recursive : Bool := false
deriving Repr, DecidableEq

/-- `TableDefinition.add_column`: merge into an existing column of the same
name, else insert. -/
def TableDefinition.addColumn (td : TableDefinition) (cl : ColumnLineage) :
    Except PyStr TableDefinition :=
  match pyDictGet td.columns cl.name with
  | some existing =>
    (existing.mergeFrom cl).map fun merged =>
      { td with columns := pyDictSet td.columns cl.name merged }
  | none => .ok { td with columns := pyDictSet td.columns cl.name cl }

/-- `TableDefinition.get_column`. -/
def TableDefinition.getColumn (td : TableDefinition) (name : PyStr) : Option ColumnLineage :=
  pyDictGet td.columns name

/-- `TableDefinition.has_column`. -/
def TableDefinition.hasColumn (td : TableDefinition) (name : PyStr) : Bool :=
  pyDictContains td.columns name

/-! ## Table registry (`registry/table_registry.py`) -/

/-- `TableRegistry`: insertion-ordered dict of normalized name to
`TableDefinition`, plus the statement counter. -/
structure TableRegistry where
  tables : List (PyStr × TableDefinition) := []
  statementCounter : Nat := 0
deriving Repr, DecidableEq

/-- Shared tail of `TableRegistry.register_table`: stamp
`created_at_statement` when unset and store under the normalized key. -/
def TableRegistry.storeTable (reg : TableRegistry) (key : PyStr)
    (td : TableDefinition) : TableRegistry :=
  let td1 :=
    if td.created_at_statement.isNone then
      { td with created_at_statement := some reg.statementCounter }
    else td
  { reg with tables := pyDictSet reg.tables key td1 }

/-- `TableRegistry.register_table`. Raises over an existing source table;
the returned flag records whether the redefinition warning was emitted. -/
def TableRegistry.registerTable (reg : TableRegistry) (td : TableDefinition) :
    Except PyStr (TableRegistry × Bool) :=
  let tableName := normalizeTableName td.name
  match pyDictGet reg.tables tableName with
  | some existing =>
    if existing.is_source_table then
      .error (str "Cannot redefine source table")
    else
      .ok (reg.storeTable tableName td, true)
  | none => .ok (reg.storeTable tableName td, false)

/-- `TableRegistry.get_table`. -/
def TableRegistry.getTable (reg : TableRegistry) (name : PyStr) : Option TableDefinition :=
  pyDictGet reg.tables (normalizeTableName name)

/-- `TableRegistry.has_table`. -/
def TableRegistry.hasTable (reg : TableRegistry) (name : PyStr) : Bool :=
  pyDictContains reg.tables (normalizeTableName name)

/-- `TableRegistry.register_source_table`. -/
def TableRegistry.registerSourceTable (reg : TableRegistry) (name : PyStr)
    (columns : Option (List PyStr)) : Except PyStr TableRegistry :=
  let tableName := normalizeTableName name
  if reg.hasTable tableName then .ok reg
  else
    let td0 : TableDefinition :=
      { name := tableName, table_type := some .external, is_source_table := true }
    let tdE : Except PyStr TableDefinition :=
      match columns with
      | some cols =>
        if cols.isEmpty then .ok td0
        else
          cols.foldlM (fun (acc : TableDefinition) cn =>
            acc.addColumn { name := cn, sources := [], expression_type := .direct }) td0
      | none => .ok td0
    tdE.map fun td => { reg with tables := pyDictSet reg.tables tableName td }

/-- `TableRegistry.update_table_columns`. -/
def TableRegistry.updateTableColumns (reg : TableRegistry) (tableName : PyStr)
    (newColumns : List (PyStr × ColumnLineage)) : Except PyStr TableRegistry :=
  match reg.getTable tableName with
  | none => .error (str "Cannot update table: table not found")
  | some td =>
    (newColumns.foldlM (fun (acc : TableDefinition) e => acc.addColumn e.2) td
        : Except PyStr TableDefinition).map fun td1 =>
      { reg with tables := pyDictSet reg.tables (normalizeTableName tableName) td1 }

/-- `TableRegistry.get_all_tables`. -/
def TableRegistry.getAllTables (reg : TableRegistry) : List TableDefinition :=
  pyDictValues reg.tables

/-- `TableRegistry.remove_table`: the flag reports whether a table was
removed. -/
def TableRegistry.removeTable (reg : TableRegistry) (name : PyStr) :
    TableRegistry × Bool :=
  let normalizedName := normalizeTableName name
  if pyDictContains reg.tables normalizedName then
    ({ reg with tables := pyDictDelete reg.tables normalizedName }, true)
  else (reg, false)

/-! ## Transitive lineage resolver (`resolver/transitive_resolver.py`) -/

/-- `TableType.value` (the string stored in `LineageNode.table_type`). -/
def TableType.value : TableType → PyStr
  | .table => str "table"
  | .view => str "view"
  | .tempTable => str "temp_table"
  | .cte => str "cte"
  | .external => str "external"
  | .subquery => str "subquery"

/-- `LineageNode` (`models/lineage_path.py`). -/
structure LineageNode where
  column : ColumnRef
  expression : Option PyStr := none
  expression_type : ExpressionType := .direct
  table_type : PyStr := str "UNKNOWN"
deriving Repr, DecidableEq

/-- A `LineagePath` is its list of nodes (target first, source last). -/
abbrev LineagePath := List LineageNode

/-- The cycle-detection key `f"{table_name}.{column_name}"`. -/
def nodeKey (t c : PyStr) : PyStr := t ++ str "." ++ c

/-- The `LineageNode` `_dfs_trace` builds for the current position. -/
def traceNode (t c : PyStr) (td : TableDefinition) (cl : ColumnLineage) :
    LineageNode :=
  { column := { table := t, column := c },
    expression := cl.expression,
    expression_type := cl.expression_type,
    table_type :=
      match td.table_type with
      | some tt => tt.value
      | none => str "UNKNOWN" }

/-- `TransitiveLineageResolver._dfs_trace`. The Python recursion is modelled
with an explicit `fuel` for Lean termination alongside the source's `depth`
/ `maxDepth` guard; `claim_C4` below shows any `fuel` at least
`maxDepth + 2 - depth` yields the same result, which is exactly the claim
that the recursion terminates within depth `maxDepth + 1`. The
`for source in column_lineage.sources` loop appends each branch's
completed paths to the shared `all_paths` in order, each branch receiving
its own copy of `visited` (the Python code passes `visited.copy()`) and
its own copy of the partial path: the loop is the concatenation of the
per-source results. -/
def dfsTrace (reg : TableRegistry) : Nat → PyStr → PyStr →
    LineagePath → List PyStr → Nat → Nat → List LineagePath
  | 0, _, _, _, _, _, _ => []
  | f + 1, t, c, curPath, visited, depth, maxDepth =>
    if depth > maxDepth then []
    else
      let key := nodeKey t c
      if key ∈ visited then []
      else
        match reg.getTable t with
        | none => []
        | some td =>
          match td.getColumn c with
          | none => []
          | some cl =>
            let path1 := curPath ++ [traceNode t c td cl]
            if td.is_source_table then [path1]
            else if cl.sources.isEmpty then [path1]
            else
              (cl.sources.map fun s =>
                dfsTrace reg f s.table s.column path1 (key :: visited)
                  (depth + 1) maxDepth).flatten

/-- `TransitiveLineageResolver.trace_to_source` (fuel `maxDepth + 2`
suffices by `traceFuelIrrelevant`). -/
def traceToSource (reg : TableRegistry) (t c : PyStr) (maxDepth : Nat) :
    Except PyStr (List LineagePath) :=
  match reg.getTable t with
  | none => .error (str "Table not found in registry")
  | some td =>
    if td.hasColumn c then .ok (dfsTrace reg (maxDepth + 2) t c [] [] 0 maxDepth)
    else .error (str "Column not found in table")

/-- One scan of `_dfs_impact`'s triple loop over the registry: all
`(table_def.name, col_name)` whose lineage has a source equal (by table and
column) to the current node, in iteration order. The recursive calls in the
Python loop cannot change which entries match (the scan depends only on the
registry and the current node), so the stateful triple loop is equivalent
to scanning first and then processing the hits in order. -/
def matchesOf (reg : TableRegistry) (t c : PyStr) : List (PyStr × PyStr) :=
  reg.getAllTables.flatMap fun td =>
    td.columns.flatMap fun e =>
      e.2.sources.filterMap fun s =>
        if s.table = t ∧ s.column = c then some (td.name, e.1) else none

/-- State of `_dfs_impact`: the accumulated `impacted` list and the shared
`visited` set (one Python set mutated across the whole traversal). -/
abbrev ImpactState := List ColumnRef × Finset PyStr

/-- `TransitiveLineageResolver._dfs_impact`. The Python `depth` guard
(`depth > max_depth` at entry, `depth + 1` per recursion) is modelled by
the remaining budget `fuel = maxDepth + 1 - depth`, which reaches `0`
exactly when the guard trips. For each matching `(table, column)` hit, in
scan order, the downstream `ColumnRef` is appended to `impacted` and the
traversal recurses on it, threading the shared `impacted` list and
`visited` set. -/
def dfsImpact (reg : TableRegistry) : Nat → PyStr → PyStr →
    ImpactState → ImpactState
  | 0, _, _, st => st
  | f + 1, t, c, st =>
    let key := nodeKey t c
    if key ∈ st.2 then st
    else
      (matchesOf reg t c).foldl
        (fun st2 hit =>
          dfsImpact reg f hit.1 hit.2
            (st2.1 ++ [{ table := hit.1, column := hit.2 }], st2.2))
        (st.1, insert key st.2)

/-- `TransitiveLineageResolver.find_impact` (entry `depth = 0`, so the
initial budget is `maxDepth + 1`). -/
def findImpact (reg : TableRegistry) (t c : PyStr) (maxDepth : Nat) :
    Except PyStr (List ColumnRef) :=
  match reg.getTable t with
  | none => .error (str "Table not found in registry")
  | some td =>
    if !td.is_source_table && !td.hasColumn c then
      .error (str "Column not found in table")
    else .ok (dfsImpact reg (maxDepth + 1) t c ([], ∅)).1

/-! ## Dependency-to-lineage conversion
(`analyzer/create_table_analyzer.py` / `analyzer/insert_into_analyzer.py`
versus `analyzer/cte_extractor.py`) -/

/-- `ColumnDependency` (`models/dependency.py`). -/
structure ColumnDependency where
  source : ColumnRef
  target : ColumnRef
  expression_type : ExpressionType
  expression : Option PyStr := none
  confidence : ℚ := 1
  is_aggregate : Bool := false
  aggregate_function : Option PyStr := none
  is_group_by : Bool := false
deriving Repr, DecidableEq

/-- `defaultdict(list)` grouping: append `v` to the group of `k`, creating
the group at the end on first occurrence. -/
def groupAppend {α : Type} : List (PyStr × List α) → PyStr → α → List (PyStr × List α)
  | [], k, v => [(k, [v])]
  | (k1, vs) :: rest, k, v =>
    if k1 = k then (k1, vs ++ [v]) :: rest else (k1, vs) :: groupAppend rest k v

/-- Group dependencies by `dep.target.column`, in first-occurrence order. -/
def groupByTarget (deps : List ColumnDependency) : List (PyStr × List ColumnDependency) :=
  deps.foldl (fun acc d => groupAppend acc d.target.column d) []

/-- Build one `ColumnLineage` from a (nonempty) group: expression, kind,
confidence and aggregation flags come from the first dependency; `sources`
is supplied by the caller (this is where the two conversion variants
differ). -/
def lineageOfGroup (targetName : PyStr) (ds : List ColumnDependency)
    (sources : List ColumnRef) : ColumnLineage :=
  { name := targetName,
    sources := sources,
    expression := match ds.head? with | some d => d.expression | none => none,
    expression_type := match ds.head? with | some d => d.expression_type | none => .direct,
    confidence := match ds.head? with | some d => d.confidence | none => 1,
    is_aggregate := match ds.head? with | some d => d.is_aggregate | none => false,
    aggregate_function := match ds.head? with | some d => d.aggregate_function | none => none,
    is_group_by := match ds.head? with | some d => d.is_group_by | none => false }

/-- `CreateTableAnalyzer._convert_dependencies_to_lineages` (identical in
`InsertIntoAnalyzer`): sources are collected verbatim, with **no**
filtering of the `__CONSTANT__` placeholder. -/
def convertDepsCreate (deps : List ColumnDependency) : List ColumnLineage :=
  (groupByTarget deps).map fun e => lineageOfGroup e.1 e.2 (e.2.map (·.source))

/-- `CTEExtractor._convert_dependencies_to_lineages`: identical, except
that sources whose table is the `__CONSTANT__` placeholder are filtered
out. -/
def convertDepsCte (deps : List ColumnDependency) : List ColumnLineage :=
  (groupByTarget deps).map fun e =>
    lineageOfGroup e.1 e.2
      (e.2.filterMap fun d =>
        if d.source.table = str "__CONSTANT__" then none else some d.source)

/-- The placeholder dependency `DependencyExtractor.extract` emits for a
projected expression with no source columns (a constant-only projection):
source table is the sentinel `__CONSTANT__`, target table `__OUTPUT__`
(`analyzer/dependency_extractor.py`, lines 339-362). -/
def constantPlaceholderDep (targetName : PyStr) (exprText : Option PyStr)
    (exprType : ExpressionType) : ColumnDependency :=
  { source := { table := str "__CONSTANT__", column := targetName },
    target := { table := str "__OUTPUT__", column := targetName },
    expression_type := exprType,
    expression := exprText,
    confidence := 1 }

/-! ## Statement classification (`parser/statement_classifier.py`) -/

/-- `StatementType` (`models/statement_type.py`). -/
inductive StatementType where
  | select
  | withCte
  | createTableAs
  | createTempTable
  | createView
  | createTable
  | insertIntoSelect
  | dropTable
  | updateStmt
  | deleteStmt
  | unsupported
  | unknown
deriving Repr, DecidableEq

/-- The sqlglot AST node kinds relevant to `INSERT` classification. In
sqlglot, `Select` and `Union` are sibling subclasses of `Subqueryable`
(`Union` is **not** a `Select`), and an `INSERT INTO ... VALUES` body is a
`Values` node. -/
inductive SqlBody where
  | selectNode
  | unionNode
  | valuesNode
deriving Repr, DecidableEq

/-- `isinstance(x, expressions.Select)`. -/
def SqlBody.isSelectInstance : SqlBody → Bool
  | .selectNode => true
  | _ => false

/-- `StatementClassifier._has_select_clause`:
`expression and isinstance(expression, expressions.Select)`. -/
def hasSelectClause (body : Option SqlBody) : Bool :=
  match body with
  | some b => b.isSelectInstance
  | none => false

/-- The part of a `ClassifiedStatement` the verified claims use. -/
structure ClassifiedStatement where
  statement_type : StatementType
  target_table : Option PyStr := none
  reason : Option PyStr := none
deriving Repr, DecidableEq

/-- The `Insert` branch of `StatementClassifier.classify` (lines 126-148):
`InsertIntoSelect` when `_has_select_clause` holds, else `Unsupported` with
the VALUES reason. `tableName` stands for the extracted target name. -/
def classifyInsert (body : Option SqlBody) (tableName : PyStr) : ClassifiedStatement :=
  if hasSelectClause body then
    { statement_type := .insertIntoSelect, target_table := some tableName }
  else
    { statement_type := .unsupported,
      reason := some (str "INSERT INTO ... VALUES is not supported") }

/-! ## Script analyzer dispatch (`analyzer/script_analyzer.py`) -/

/-- A Python exception as seen by the dispatch: `LineageError` (the only
class the INSERT branch catches) or any other exception. -/
inductive PyExc where
  | lineageError (msg : PyStr)
  | otherExc (msg : PyStr)
deriving Repr, DecidableEq

/-- The observable part of a per-statement result dict: its `type`,
`success` and `error` entries. -/
structure StatementResult where
  rtype : PyStr
  success : Bool
  error : Option PyStr := none
deriving Repr, DecidableEq

/-- The sub-analyzers `ScriptAnalyzer._analyze_statement` dispatches to,
abstracted by their outcome: `CreateTableAnalyzer.analyze` and
`InsertIntoAnalyzer.analyze` may raise (modelled as `Except`), while
`WithCTEAnalyzer.analyze` wraps its whole body in `try/except Exception`
and always returns a result dict. -/
structure Analyzers where
  createTableAnalyzer : ClassifiedStatement → Except PyExc TableDefinition
  insertIntoAnalyzer : ClassifiedStatement → Except PyExc (List (PyStr × ColumnLineage))
  withCteAnalyzer : ClassifiedStatement → StatementResult

/-- `ScriptAnalyzer._analyze_statement` (lines 104-183). Only the
`INSERT_INTO_SELECT` branch has a `try/except LineageError`; the CREATE
branches call their analyzer with no handler, so its exceptions escape. -/
def analyzeStatement (A : Analyzers) (st : ClassifiedStatement) :
    Except PyExc StatementResult :=
  match st.statement_type with
  | .createTableAs | .createTempTable =>
    (A.createTableAnalyzer st).map fun _ =>
      { rtype := str "create_table", success := true }
  | .createView =>
    (A.createTableAnalyzer st).map fun _ =>
      { rtype := str "create_view", success := true }
  | .select => .ok { rtype := str "select", success := true }
  | .insertIntoSelect =>
    match A.insertIntoAnalyzer st with
    | .ok _ => .ok { rtype := str "insert_into", success := true }
    | .error (.lineageError m) =>
      .ok { rtype := str "insert_into", success := false, error := some m }
    | .error e => .error e
  | .withCte => .ok (A.withCteAnalyzer st)
  | _ => .ok { rtype := str "unsupported", success := false }

/-- The per-statement loop of `ScriptAnalyzer.analyze_script` (step 3): an
escaping exception aborts the whole loop. -/
def analyzeScriptStatements (A : Analyzers) :
    List ClassifiedStatement → Except PyExc (List StatementResult)
  | [] => .ok []
  | s :: rest =>
    match analyzeStatement A s with
    | .error e => .error e
    | .ok r => (analyzeScriptStatements A rest).map (r :: ·)

/-! ## Symbol resolver (`analyzer/symbol_resolver.py`) -/

/-- `ErrorMode` (`models/config.py`). -/
inductive ErrorMode where
  | fail
  | warn
  | ignore
deriving Repr, DecidableEq

/-- The `LineageConfig` fields the resolver reads. The Python field
`require_table_prefix` is called `requireTableQualifier` here. -/
structure LineageConfig where
  requireTableQualifier : Bool := false
  schema_validation : Bool := false
  on_ambiguity : ErrorMode := .fail
deriving Repr, DecidableEq

/-- A schema provider, abstracted by its `column_exists(qualified_table,
column)` capability; `none` models the absence of a provider. -/
abbrev SchemaFn := PyStr → PyStr → Bool

/-- The scope as the resolver sees it: the insertion-ordered `tables` dict
(each table registered under its real name and its alias). The parent
link is `None` in all resolver paths verified here. -/
structure ScopeM where
  tables : List (PyStr × TableRef) := []

/-- `Scope.resolve_table` (with no parent scope). -/
def ScopeM.resolveTable (sc : ScopeM) (name : PyStr) : Option TableRef :=
  if name.isEmpty then none else pyDictGet sc.tables name

/-- The exceptions `resolve_column_with_inference` can raise. -/
inductive ResolveErr where
  | ambiguousColumn (msg : PyStr)
  | unresolvedReference (msg : PyStr)
  | schemaValidation (msg : PyStr)
  | valueError (msg : PyStr)
deriving Repr, DecidableEq

/-- A successful resolution: the reference, its confidence, and the
warnings recorded on the resolver's collector during the call. -/
abbrev Resolution := ColumnRef × ℚ × List PyStr

/-- `{table.table: table for table in tables}.values()`:
first-occurrence key order, last value per key. -/
def uniqueTablesList (sc : ScopeM) : List TableRef :=
  pyDictValues ((pyDictValues sc.tables).foldl (fun acc t => pyDictSet acc t.table t) [])

/-- `SymbolResolver._get_table_resolution_order`: distinct real table
names in `scope.tables` iteration order (FROM-clause order). -/
def tableResolutionOrder (sc : ScopeM) : List PyStr :=
  (sc.tables.map (·.2.table)).foldl (fun acc t => if t ∈ acc then acc else acc ++ [t]) []

/-- `SymbolResolver._find_tables_with_column`. -/
def findTablesWithColumn (schema : Option SchemaFn) (sc : ScopeM)
    (columnName : PyStr) : List PyStr :=
  match schema with
  | none => []
  | some colExists =>
    (uniqueTablesList sc).filterMap fun tr =>
      if colExists tr.toQualifiedName columnName then some tr.table else none

/-- `table_order.index(t.table) if t.table in table_order else 999`. -/
def orderKey (order : List PyStr) (t : TableRef) : Nat :=
  match order.findIdx? (fun x => decide (x = t.table)) with
  | some i => i
  | none => 999

/-- Stable insertion into a key-sorted list (insert after equal keys). -/
def stableInsertBy {α : Type} (key : α → Nat) (x : α) : List α → List α
  | [] => [x]
  | y :: ys => if key x < key y then x :: y :: ys else y :: stableInsertBy key x ys

/-- A stable sort by `key`, modelling Python's stable `list.sort`. -/
def stableSortBy {α : Type} (key : α → Nat) (l : List α) : List α :=
  l.foldl (fun acc x => stableInsertBy key x acc) []

/-- The `ColumnRef` all resolver exits build from a `TableRef`. -/
def refOf (tr : TableRef) (columnName : PyStr) : ColumnRef :=
  { table := tr.table, column := columnName,
    database := tr.database, schema := tr.schema }

/-- The candidate list `_handle_ambiguous_column_with_confidence` builds
before sorting: the unique in-scope tables, filtered to those carrying the
column when a (truthy) `tables_with_column` list is given, falling back to
the unfiltered list when the filter empties it. -/
def ambiguityTableList (sc : ScopeM) (tablesWithColumn : Option (List PyStr)) :
    List TableRef :=
  let tableList0 := uniqueTablesList sc
  let tableList1 :=
    match tablesWithColumn with
    | some twc =>
      if twc.isEmpty then tableList0
      else
        tableList0.filter fun t =>
          decide (t.table ∈ twc)
            || (match t.tblAlias with | some a => decide (a ∈ twc) | none => false)
    | none => tableList0
  if tableList1.isEmpty then tableList0 else tableList1

/-- `SymbolResolver._handle_ambiguous_column_with_confidence`
(lines 675-755). -/
def handleAmbiguousColumnWithConfidence (sc : ScopeM) (cfg : LineageConfig)
    (hasSchema : Bool) (tablesWithColumn : Option (List PyStr))
    (columnName : PyStr) : Except ResolveErr Resolution :=
  let sorted := stableSortBy (orderKey (tableResolutionOrder sc))
    (ambiguityTableList sc tablesWithColumn)
  match cfg.on_ambiguity with
  | .fail => .error (.ambiguousColumn columnName)
  | .warn =>
    match sorted.head? with
    | some tr => .ok (refOf tr columnName, 6 / 10, [str "ambiguity warning"])
    | none => .error (.valueError (str "IndexError: list index out of range"))
  | .ignore =>
    match sorted.head? with
    | some tr => .ok (refOf tr columnName, if hasSchema then 8 / 10 else 5 / 10, [])
    | none => .error (.valueError (str "IndexError: list index out of range"))

/-- `SymbolResolver.resolve_column_with_inference` (lines 475-673). -/
def resolveColumnWithInference (sc : ScopeM) (cfg : LineageConfig)
    (schema : Option SchemaFn) (columnName : PyStr)
    (tableQualifier : Option PyStr) : Except ResolveErr Resolution :=
  if columnName.isEmpty then .error (.valueError (str "Column name cannot be empty"))
  else if truthy tableQualifier then
    -- Case 1: table qualifier provided
    match sc.resolveTable (tableQualifier.getD []) with
    | none => .error (.unresolvedReference columnName)
    | some tr =>
      let confidence : ℚ := if schema.isSome then 1 else 95 / 100
      match schema with
      | some colExists =>
        if cfg.schema_validation && !colExists tr.toQualifiedName columnName then
          .error (.schemaValidation columnName)
        else .ok (refOf tr columnName, confidence, [])
      | none => .ok (refOf tr columnName, confidence, [])
  else if cfg.requireTableQualifier then .error (.ambiguousColumn columnName)
  else
    match uniqueTablesList sc with
    | [tr] =>
      -- Case 2a: exactly one unique table in scope
      match schema with
      | some colExists =>
        if !colExists tr.toQualifiedName columnName then
          if cfg.schema_validation then .error (.schemaValidation columnName)
          else .ok (refOf tr columnName, 3 / 10, [str "schema missing warning"])
        else .ok (refOf tr columnName, 1, [])
      | none => .ok (refOf tr columnName, 95 / 100, [])
    | uniq =>
      -- Case 2b: multiple (or zero) tables in scope
      match schema with
      | some colExists =>
        match findTablesWithColumn (some colExists) sc columnName with
        | [] =>
          if cfg.schema_validation then .error (.schemaValidation columnName)
          else
            match uniq.head? with
            | some tr => .ok (refOf tr columnName, 3 / 10, [str "schema missing warning"])
            | none => .error (.valueError (str "IndexError: list index out of range"))
        | [tn] =>
          match sc.resolveTable tn with
          | none => .error (.unresolvedReference tn)
          | some tr => .ok (refOf tr columnName, 1, [])
        | twc =>
          handleAmbiguousColumnWithConfidence sc cfg true (some twc) columnName
      | none => handleAmbiguousColumnWithConfidence sc cfg false none columnName

/-! ## Helper lemmas on the dict model -/

theorem pyDictGet_pyDictSet_self {α : Type} (d : List (PyStr × α)) (k : PyStr) (v : α) :
    pyDictGet (pyDictSet d k v) k = some v := by
  induction d with
  | nil => simp [pyDictSet, pyDictGet, List.find?]
  | cons e rest ih =>
    obtain ⟨k1, v1⟩ := e
    by_cases h : k1 = k
    · simp [pyDictSet, h, pyDictGet, List.find?]
    · simp only [pyDictSet, if_neg h]
      simpa [pyDictGet, List.find?, h] using ih

theorem pyDictContains_pyDictSet_self {α : Type} (d : List (PyStr × α)) (k : PyStr) (v : α) :
    pyDictContains (pyDictSet d k v) k = true := by
  simp [pyDictContains, pyDictGet_pyDictSet_self]

/-! ## Claim C2: the `__CONSTANT__` placeholder and lineage conversion -/

/-- **C2** (code bug): for a constant-only projection the dependency
extractor emits a placeholder dependency with the sentinel source table
`__CONSTANT__` and promises (in its own comment) that it "will be filtered
out during conversion".  The CTE extractor's conversion does filter it, but
`CreateTableAnalyzer._convert_dependencies_to_lineages` (shared by the
INSERT analyzer) does not: the materialized column keeps a
`__CONSTANT__.one` source instead of `sources = []`. -/
theorem claim_C2_constant_not_filtered :
    (convertDepsCreate [constantPlaceholderDep (str "one") (some (str "1")) .direct]).map
        (fun cl => (cl.name, cl.sources))
      = [(str "one", [{ table := str "__CONSTANT__", column := str "one" }])]
    ∧ (convertDepsCte [constantPlaceholderDep (str "one") (some (str "1")) .direct]).map
        (fun cl => (cl.name, cl.sources))
      = [(str "one", ([] : List ColumnRef))] := by
  constructor <;> rfl

/-! ## Claim C8: classification of `INSERT INTO ... SELECT ... UNION ...` -/

/-- **C8** (code bug): `_has_select_clause` accepts only a `Select`
instance, and in sqlglot a `Union` is not a `Select`; so an
`INSERT INTO t SELECT ... UNION ALL SELECT ...` is classified
`Unsupported` — with the factually wrong reason string
"INSERT INTO ... VALUES is not supported" — while an `INSERT ... SELECT`
is classified `InsertIntoSelect`. -/
theorem claim_C8_union_insert_misclassified :
    classifyInsert (some .unionNode) (str "t")
      = { statement_type := .unsupported,
          target_table := none,
          reason := some (str "INSERT INTO ... VALUES is not supported") }
    ∧ classifyInsert (some .selectNode) (str "t")
      = { statement_type := .insertIntoSelect,
          target_table := some (str "t"),
          reason := none } := by
  constructor <;> rfl

/-! ## Claim C1: per-statement exception handling in the script analyzer -/

/-- The analyzer bundle whose CREATE analyzer always raises a
`LineageError`. -/
def failingCreateAnalyzers : Analyzers :=
  { createTableAnalyzer := fun _ => .error (.lineageError (str "boom")),
    insertIntoAnalyzer := fun _ => .ok [],
    withCteAnalyzer := fun _ => { rtype := str "with_cte", success := true } }

/-- **C1** (counterexample): a two-statement script whose first statement
is a `CREATE TABLE AS` whose analysis raises.  The exception is *not*
caught in the per-statement dispatch: the whole script analysis aborts
with the exception instead of recording `{success: false}` and continuing
to the second statement. -/
theorem claim_C1_counterexample :
    analyzeScriptStatements failingCreateAnalyzers
        [{ statement_type := .createTableAs }, { statement_type := .select }]
      = .error (.lineageError (str "boom")) := by
  rfl

/-- **C1** (amended): only the `INSERT_INTO_SELECT` branch catches
analyzer exceptions, and only `LineageError`s: such a failure is recorded
as `{success: false, error}` and the loop continues; a `LineageError`
raised while analyzing a CREATE TABLE AS / CREATE TEMP TABLE / CREATE
VIEW statement (or a non-`LineageError` from the INSERT analyzer)
propagates out of the dispatch and aborts the script; WITH CTE analysis
never raises (its analyzer catches internally). -/
theorem claim_C1_amended (A : Analyzers) (st : ClassifiedStatement) :
    (st.statement_type = .insertIntoSelect →
      ∀ m, A.insertIntoAnalyzer st = .error (.lineageError m) →
        analyzeStatement A st
          = .ok { rtype := str "insert_into", success := false, error := some m })
    ∧ (st.statement_type = .insertIntoSelect →
      ∀ m, A.insertIntoAnalyzer st = .error (.otherExc m) →
        analyzeStatement A st = .error (.otherExc m))
    ∧ ((st.statement_type = .createTableAs ∨ st.statement_type = .createTempTable
        ∨ st.statement_type = .createView) →
      ∀ e, A.createTableAnalyzer st = .error e → analyzeStatement A st = .error e)
    ∧ (st.statement_type = .withCte → analyzeStatement A st = .ok (A.withCteAnalyzer st))
    ∧ (∀ rest r, analyzeStatement A st = .ok r →
        analyzeScriptStatements A (st :: rest)
          = (analyzeScriptStatements A rest).map (r :: ·)) := by
  refine ⟨?_, ?_, ?_, ?_, ?_⟩
  · intro h m hm
    simp [analyzeStatement, h, hm]
  · intro h m hm
    simp [analyzeStatement, h, hm]
  · intro h e he
    rcases h with h | h | h <;> simp [analyzeStatement, h, he, Except.map]
  · intro h
    simp [analyzeStatement, h]
  · intro rest r hr
    simp [analyzeScriptStatements, hr]

/-- **C1** (witness): the amended theorem applied to a concrete analyzer
bundle and statement: an INSERT-branch `LineageError` becomes a
`success := false` per-statement result and the loop continues. -/
theorem claim_C1_amended_witness :
    analyzeStatement
        { createTableAnalyzer := fun _ => .ok { name := str "t" },
          insertIntoAnalyzer := fun _ => .error (.lineageError (str "no target")),
          withCteAnalyzer := fun _ => { rtype := str "with_cte", success := true } }
        { statement_type := .insertIntoSelect }
      = .ok { rtype := str "insert_into", success := false,
              error := some (str "no target") } :=
  (claim_C1_amended _ _).1 rfl _ rfl

theorem exceptMap_ok {ε α β : Type} {f : α → β} {e : Except ε α} {b : β}
    (h : e.map f = .ok b) : ∃ a, e = .ok a ∧ f a = b := by
  cases e with
  | error x => simp [Except.map] at h
  | ok a =>
    refine ⟨a, rfl, ?_⟩
    simpa [Except.map] using h

theorem pyDictSet_map_fst {α : Type} (d : List (PyStr × α)) (k : PyStr) (v w : α) :
    (pyDictSet d k v).map (·.1) = (pyDictSet d k w).map (·.1) := by
  induction d with
  | nil => rfl
  | cons e rest ih =>
    obtain ⟨k1, v1⟩ := e
    by_cases h : k1 = k
    · simp [pyDictSet, h]
    · simpa [pyDictSet, h] using ih

/-! ## Claim C6: registry registration and removal edge cases -/

/-- **C6**: `register_table` raises over an existing source (External)
table, and warns (flag `true`) and replaces over an existing non-source
table; `register_source_table` is idempotent (a second call with the same
name returns the registry unchanged); `remove_table` of an absent name
returns `false` with the registry unchanged. -/
theorem claim_C6 (reg : TableRegistry) (td existing : TableDefinition)
    (n : PyStr) (cols cols2 : Option (List PyStr)) :
    (pyDictGet reg.tables (normalizeTableName td.name) = some existing →
      (existing.is_source_table = true →
        reg.registerTable td = .error (str "Cannot redefine source table"))
      ∧ (existing.is_source_table = false →
        reg.registerTable td
          = .ok (reg.storeTable (normalizeTableName td.name) td, true)
        ∧ (reg.storeTable (normalizeTableName td.name) td).hasTable td.name = true))
    ∧ (reg.hasTable n = true → reg.registerSourceTable n cols = .ok reg)
    ∧ (∀ reg1, reg.registerSourceTable n cols = .ok reg1 →
        reg1.registerSourceTable n cols2 = .ok reg1)
    ∧ (reg.hasTable n = false → reg.removeTable n = (reg, false)) := by
  refine ⟨?_, ?_, ?_, ?_⟩
  · intro hget
    constructor
    · intro hsrc
      simp [TableRegistry.registerTable, hget, hsrc]
    · intro hsrc
      refine ⟨by simp [TableRegistry.registerTable, hget, hsrc], ?_⟩
      simp [TableRegistry.hasTable, TableRegistry.storeTable, normalizeTableName_idem,
        pyDictContains_pyDictSet_self]
  · intro h
    simp only [TableRegistry.registerSourceTable]
    rw [show reg.hasTable (normalizeTableName n) = true by
      simpa [TableRegistry.hasTable, normalizeTableName_idem]
        using h]
    rfl
  · intro reg1 h1
    simp only [TableRegistry.registerSourceTable] at h1 ⊢
    by_cases h : reg.hasTable (normalizeTableName n) = true
    · rw [h] at h1
      simp only [if_true] at h1
      cases h1
      rw [h]
      rfl
    · rw [Bool.not_eq_true] at h
      rw [h] at h1
      simp only [Bool.false_eq_true, if_false] at h1
      rcases exceptMap_ok h1 with ⟨tdv, _, hreg1⟩
      subst hreg1
      have hc : (TableRegistry.mk (pyDictSet reg.tables (normalizeTableName n) tdv)
          reg.statementCounter).hasTable (normalizeTableName n) = true := by
        simp [TableRegistry.hasTable, normalizeTableName_idem, pyDictContains_pyDictSet_self]
      rw [hc]
      rfl
  · intro h
    simp only [TableRegistry.hasTable] at h
    simp [TableRegistry.removeTable, h]

/-! ## Claim C9: table-name normalization invariance -/

/-- The observable outcome of `register_table`: the error, or the
registry's key list together with the warning flag. -/
def registerKeysAndWarn (e : Except PyStr (TableRegistry × Bool)) :
    Except PyStr (List PyStr × Bool) :=
  e.map fun p => (p.1.tables.map (·.1), p.2)

/-- **C9**: every registry operation keys on
`normalize(name) = lower(strip(name))`, so each lookup-style operation
gives identical results for `n` and for `normalize(n)`; `register_table`'s
outcome (raise / warn flag / key set) is likewise invariant, and a table
registered under `n` is found under `n` (hence, by the lookup invariance,
under any whitespace/case variant of it). -/
theorem claim_C9 (reg : TableRegistry) (n : PyStr) (td : TableDefinition)
    (cols : Option (List PyStr)) (newCols : List (PyStr × ColumnLineage)) :
    reg.getTable n = reg.getTable (normalizeTableName n)
    ∧ reg.hasTable n = reg.hasTable (normalizeTableName n)
    ∧ reg.removeTable n = reg.removeTable (normalizeTableName n)
    ∧ reg.updateTableColumns n newCols
        = reg.updateTableColumns (normalizeTableName n) newCols
    ∧ reg.registerSourceTable n cols
        = reg.registerSourceTable (normalizeTableName n) cols
    ∧ registerKeysAndWarn (reg.registerTable { td with name := n })
        = registerKeysAndWarn (reg.registerTable { td with name := normalizeTableName n })
    ∧ (∀ reg1 w, reg.registerTable { td with name := n } = .ok (reg1, w) →
        reg1.hasTable n = true) := by
  refine ⟨?_, ?_, ?_, ?_, ?_, ?_, ?_⟩
  · simp [TableRegistry.getTable, normalizeTableName_idem]
  · simp [TableRegistry.hasTable, normalizeTableName_idem]
  · simp [TableRegistry.removeTable, normalizeTableName_idem]
  · simp [TableRegistry.updateTableColumns, TableRegistry.getTable, normalizeTableName_idem]
  · simp [TableRegistry.registerSourceTable, TableRegistry.hasTable, normalizeTableName_idem]
  · simp only [TableRegistry.registerTable, normalizeTableName_idem]
    cases hget : pyDictGet reg.tables (normalizeTableName n) with
    | none =>
      simp only [registerKeysAndWarn, TableRegistry.storeTable, Except.map]
      exact congrArg
        (fun l => (Except.ok (l, false) : Except PyStr (List PyStr × Bool)))
        (pyDictSet_map_fst _ _ _ _)
    | some existing =>
      by_cases hsrc : existing.is_source_table = true
      · simp [hsrc]
      · rw [Bool.not_eq_true] at hsrc
        simp only [hsrc, Bool.false_eq_true, if_false, registerKeysAndWarn,
          TableRegistry.storeTable, Except.map]
        exact congrArg
          (fun l => (Except.ok (l, true) : Except PyStr (List PyStr × Bool)))
          (pyDictSet_map_fst _ _ _ _)
  · intro reg1 w h
    simp only [TableRegistry.registerTable] at h
    cases hget : pyDictGet reg.tables (normalizeTableName n) with
    | none =>
      rw [hget] at h
      dsimp only at h
      cases h
      simp [TableRegistry.hasTable, TableRegistry.storeTable,
        pyDictContains_pyDictSet_self]
    | some existing =>
      rw [hget] at h
      dsimp only at h
      by_cases hsrc : existing.is_source_table = true
      · rw [if_pos hsrc] at h
        exact absurd h (by simp)
      · rw [Bool.not_eq_true] at hsrc
        rw [hsrc] at h
        simp only [Bool.false_eq_true, if_false] at h
        cases h
        simp [TableRegistry.hasTable, TableRegistry.storeTable,
          pyDictContains_pyDictSet_self]

/-! ## Claim C10: error behaviour of `trace_to_source` and `find_impact` -/

/-- **C10**: `trace_to_source` raises a `LineageError` (it does not return
an empty path list) when the table is absent or when the table lacks the
column; `find_impact` raises when the table is absent, and for a present
table raises on a missing column only when the table is not a source
table — an unknown column on a source table is accepted. -/
theorem claim_C10 (reg : TableRegistry) (t c : PyStr) (d : Nat) :
    (reg.getTable t = none →
      traceToSource reg t c d = .error (str "Table not found in registry")
      ∧ findImpact reg t c d = .error (str "Table not found in registry"))
    ∧ (∀ td, reg.getTable t = some td → td.hasColumn c = false →
        traceToSource reg t c d = .error (str "Column not found in table"))
    ∧ (∀ td, reg.getTable t = some td → td.is_source_table = false →
        td.hasColumn c = false →
        findImpact reg t c d = .error (str "Column not found in table"))
    ∧ (∀ td, reg.getTable t = some td → td.is_source_table = true →
        ∃ l, findImpact reg t c d = .ok l)
    ∧ (∀ td, reg.getTable t = some td → td.hasColumn c = true →
        ∃ l, traceToSource reg t c d = .ok l) := by
  refine ⟨?_, ?_, ?_, ?_, ?_⟩
  · intro h
    constructor <;> simp [traceToSource, findImpact, h]
  · intro td h hc
    simp [traceToSource, h, hc]
  · intro td h hs hc
    simp [findImpact, h, hs, hc]
  · intro td h hs
    refine ⟨(dfsImpact reg (d + 1) t c ([], ∅)).1, ?_⟩
    simp [findImpact, h, hs]
  · intro td h hc
    refine ⟨dfsTrace reg (d + 2) t c [] [] 0 d, ?_⟩
    simp [traceToSource, h, hc]

/-- A registry holding the source table `orders`. -/
def regWithSource : TableRegistry :=
  { tables := [(str "orders",
      { name := str "orders", table_type := some TableType.external,
        is_source_table := true })],
    statementCounter := 0 }

/-- The registry produced by `register_source_table("Src", ["a"])` on an
empty registry. -/
def regSrc1 : TableRegistry :=
  { tables := [(str "src",
      { name := str "src",
        columns := [(str "a",
          { name := str "a", sources := [], expression_type := .direct })],
        table_type := some TableType.external, is_source_table := true })],
    statementCounter := 0 }

/-- **C6** (witness): registering over the source table `orders` raises;
a second `register_source_table("Src")` call is a no-op; removing an
absent table returns `false` and changes nothing. -/
theorem claim_C6_witness :
    regWithSource.registerTable { name := str "Orders" }
      = .error (str "Cannot redefine source table")
    ∧ regSrc1.registerSourceTable (str "Src") none = .ok regSrc1
    ∧ (TableRegistry.mk [] 0).removeTable (str "ghost") = (TableRegistry.mk [] 0, false) :=
  ⟨((claim_C6 regWithSource { name := str "Orders" }
      { name := str "orders", table_type := some TableType.external,
        is_source_table := true } (str "x") none none).1 (by rfl)).1 rfl,
   (claim_C6 (TableRegistry.mk [] 0) { name := [] } { name := [] }
      (str "Src") (some [str "a"]) none).2.2.1 regSrc1 (by rfl),
   (claim_C6 (TableRegistry.mk [] 0) { name := [] } { name := [] }
      (str "ghost") none none).2.2.2 (by rfl)⟩

/-- The registry produced by `register_table({name: "Orders"})` on an
empty registry: keyed under `orders`, stamped with statement 0. -/
def regOrders1 : TableRegistry :=
  { tables := [(str "orders",
      { name := str "Orders", created_at_statement := some 0 })],
    statementCounter := 0 }

/-- **C9** (witness): lookups of `" ORDERS "` and of its normalized form
agree, and a table registered as `Orders` is found under `Orders`,
`orders` and `" ORDERS "`. -/
theorem claim_C9_witness :
    regOrders1.getTable (str " ORDERS ")
        = regOrders1.getTable (normalizeTableName (str " ORDERS "))
    ∧ regOrders1.hasTable (str "Orders") = true
    ∧ regOrders1.hasTable (str "orders") = true
    ∧ regOrders1.hasTable (str " ORDERS ") = true :=
  ⟨(claim_C9 regOrders1 (str " ORDERS ") { name := [] } none []).1,
   (claim_C9 (TableRegistry.mk [] 0) (str "Orders") { name := [] } none
      []).2.2.2.2.2.2 regOrders1 false (by rfl),
   by rfl, by rfl⟩

/-- A registry with a source table `s` and a derived table `a` whose
column `x` has the source `s.c`. -/
def regC10 : TableRegistry :=
  { tables := [
      (str "s",
        { name := str "s", table_type := some TableType.external,
          is_source_table := true }),
      (str "a",
        { name := str "a",
          columns := [(str "x",
            { name := str "x",
              sources := [{ table := str "s", column := str "c" }] })] })],
    statementCounter := 0 }

/-- **C10** (witness): tracing an absent table or an absent column raises,
while `find_impact` on a source table accepts an unknown column name. -/
theorem claim_C10_witness :
    traceToSource regC10 (str "ghost") (str "x") 100
      = .error (str "Table not found in registry")
    ∧ traceToSource regC10 (str "a") (str "nope") 100
      = .error (str "Column not found in table")
    ∧ findImpact regC10 (str "a") (str "nope") 100
      = .error (str "Column not found in table")
    ∧ ∃ l, findImpact regC10 (str "s") (str "weird") 100 = .ok l :=
  ⟨((claim_C10 regC10 (str "ghost") (str "x") 100).1 (by rfl)).1,
   (claim_C10 regC10 (str "a") (str "nope") 100).2.1
     { name := str "a",
       columns := [(str "x",
         { name := str "x", sources := [{ table := str "s", column := str "c" }] })] }
     (by rfl) (by rfl),
   (claim_C10 regC10 (str "a") (str "nope") 100).2.2.1
     { name := str "a",
       columns := [(str "x",
         { name := str "x", sources := [{ table := str "s", column := str "c" }] })] }
     (by rfl) (by rfl) (by rfl),
   (claim_C10 regC10 (str "s") (str "weird") 100).2.2.2.1
     { name := str "s", table_type := some TableType.external, is_source_table := true }
     (by rfl) (by rfl)⟩

/-! ## Claim C5: `ColumnLineage.merge_from` -/

/-- The effect of `merge_from`'s source loop on the sources list:
each incoming source is appended unless a source with the same qualified
name is already present in the accumulated list. -/
def mergeSourcesList (acc : List ColumnRef) : List ColumnRef → List ColumnRef
  | [] => acc
  | s :: rest =>
    if acc.any (fun t => decide (t.toQualifiedName = s.toQualifiedName)) then
      mergeSourcesList acc rest
    else mergeSourcesList (acc ++ [s]) rest

theorem foldl_addSource (self : ColumnLineage) (l : List ColumnRef) :
    l.foldl ColumnLineage.addSource self
      = { self with sources := mergeSourcesList self.sources l } := by
  induction l generalizing self with
  | nil => rfl
  | cons s rest ih =>
    rw [List.foldl_cons]
    by_cases h : self.sources.any
        (fun t => decide (t.toQualifiedName = s.toQualifiedName)) = true
    · rw [show ColumnLineage.addSource self s = self by
        simp [ColumnLineage.addSource, h]]
      rw [ih]
      simp only [mergeSourcesList, h, if_true]
    · rw [show ColumnLineage.addSource self s
          = { self with sources := self.sources ++ [s] } by
        simp [ColumnLineage.addSource, h]]
      rw [ih]
      simp only [mergeSourcesList, h, Bool.false_eq_true, if_false]

theorem mergeSourcesList_exists_append (l : List ColumnRef) :
    ∀ acc, ∃ ext, mergeSourcesList acc l = acc ++ ext := by
  induction l with
  | nil => exact fun acc => ⟨[], by simp [mergeSourcesList]⟩
  | cons s rest ih =>
    intro acc
    by_cases h : acc.any (fun t => decide (t.toQualifiedName = s.toQualifiedName)) = true
    · rcases ih acc with ⟨ext, hext⟩
      exact ⟨ext, by simp only [mergeSourcesList, h, if_true, hext]⟩
    · rcases ih (acc ++ [s]) with ⟨ext, hext⟩
      refine ⟨[s] ++ ext, ?_⟩
      simp only [mergeSourcesList, h, Bool.false_eq_true, if_false, hext, List.append_assoc]

theorem mergeSourcesList_complete (l : List ColumnRef) :
    ∀ acc s, s ∈ l →
      ∃ t ∈ mergeSourcesList acc l, t.toQualifiedName = s.toQualifiedName := by
  induction l with
  | nil => intro acc s h; cases h
  | cons x rest ih =>
    intro acc s hs
    by_cases h : acc.any (fun t => decide (t.toQualifiedName = x.toQualifiedName)) = true
    · simp only [mergeSourcesList, h, if_true]
      rcases List.mem_cons.mp hs with rfl | hmem
      · rcases List.any_eq_true.mp h with ⟨t, ht, hq⟩
        rcases mergeSourcesList_exists_append rest acc with ⟨ext, hext⟩
        exact ⟨t, by rw [hext]; exact List.mem_append_left _ ht, by simpa using hq⟩
      · exact ih acc s hmem
    · simp only [mergeSourcesList, h, Bool.false_eq_true, if_false]
      rcases List.mem_cons.mp hs with rfl | hmem
      · rcases mergeSourcesList_exists_append rest (acc ++ [s]) with ⟨ext, hext⟩
        refine ⟨s, ?_, rfl⟩
        rw [hext]
        exact List.mem_append_left _ (List.mem_append_right _ (List.mem_singleton.mpr rfl))
      · exact ih (acc ++ [x]) s hmem

theorem mergeSourcesList_nodup (l : List ColumnRef) :
    ∀ acc, (acc.map ColumnRef.toQualifiedName).Nodup →
      ((mergeSourcesList acc l).map ColumnRef.toQualifiedName).Nodup := by
  induction l with
  | nil => intro acc h; simpa [mergeSourcesList] using h
  | cons s rest ih =>
    intro acc hacc
    by_cases h : acc.any (fun t => decide (t.toQualifiedName = s.toQualifiedName)) = true
    · simpa only [mergeSourcesList, h, if_true] using ih acc hacc
    · simp only [mergeSourcesList, h, Bool.false_eq_true, if_false]
      apply ih
      have hnot : ∀ x ∈ acc, ¬ x.toQualifiedName = s.toQualifiedName := by
        intro x hx hq
        exact absurd (List.any_eq_true.mpr ⟨x, hx, by simpa using hq⟩) h
      simpa [List.nodup_append] using ⟨hacc, hnot⟩

/-- **C5** (counterexample): `merge_from` does *not* OR the aggregation
flags into `self`: merging an aggregate, group-by lineage into a plain one
leaves both flags `false`. -/
theorem claim_C5_counterexample :
    (ColumnLineage.mergeFrom { name := str "a" }
        { name := str "a", is_aggregate := true, is_group_by := true }).map
      (fun m => (m.is_aggregate, m.is_group_by)) = .ok (false, false) := by
  rfl

/-- **C5** (amended): `merge_from` raises when the names differ; otherwise
it appends each source of `other` whose qualified name is not already
present among the sources accumulated so far (preserving insertion order:
`self.sources` stays a prefix, every incoming source is represented, and
qualified-name distinctness is preserved), appends `other.expression` to
`metadata["alternative_expressions"]` when it is truthy, and sets
`confidence = min(self.confidence, other.confidence * 0.9)` — but leaves
`self`'s aggregation flags (`is_aggregate`, `is_group_by`) unchanged
rather than OR-ing `other`'s into them. -/
theorem claim_C5_amended (self other : ColumnLineage) :
    (other.name ≠ self.name →
      self.mergeFrom other = .error (str "Cannot merge different columns"))
    ∧ (other.name = self.name →
      ∃ m, self.mergeFrom other = .ok m
        ∧ m.name = self.name
        ∧ m.sources = mergeSourcesList self.sources other.sources
        ∧ m.sources.take self.sources.length = self.sources
        ∧ (∀ s ∈ other.sources, ∃ t ∈ m.sources,
            t.toQualifiedName = s.toQualifiedName)
        ∧ ((self.sources.map ColumnRef.toQualifiedName).Nodup →
            (m.sources.map ColumnRef.toQualifiedName).Nodup)
        ∧ m.altExpressions = self.altExpressions
            ++ (if truthy other.expression then [other.expression.getD []] else [])
        ∧ m.confidence = min self.confidence (other.confidence * (9 / 10))
        ∧ m.is_aggregate = self.is_aggregate
        ∧ m.is_group_by = self.is_group_by) := by
  constructor
  · intro h
    simp [ColumnLineage.mergeFrom, h]
  · intro h
    refine ⟨self.mergeFromFn other, by simp [ColumnLineage.mergeFrom, h], ?_⟩
    have hfn : self.mergeFromFn other
        = { self with
            sources := mergeSourcesList self.sources other.sources,
            altExpressions := self.altExpressions
              ++ (if truthy other.expression then [other.expression.getD []] else []),
            confidence := min self.confidence (other.confidence * (9 / 10)) } := by
      unfold ColumnLineage.mergeFromFn
      rw [foldl_addSource]
      by_cases ht : truthy other.expression = true <;> simp [ht]
    rw [hfn]
    refine ⟨rfl, rfl, ?_, ?_, ?_, rfl, rfl, rfl, rfl⟩
    · rcases mergeSourcesList_exists_append other.sources self.sources with ⟨ext, hext⟩
      simp [hext, List.take_left]
    · intro s hs
      exact mergeSourcesList_complete other.sources self.sources s hs
    · exact mergeSourcesList_nodup other.sources self.sources

/-- Inputs for the C5 witness. -/
def mergeSelf0 : ColumnLineage :=
  { name := str "t",
    sources := [{ table := str "orders", column := str "a" }] }

/-- Inputs for the C5 witness. -/
def mergeOther0 : ColumnLineage :=
  { name := str "t",
    sources := [{ table := str "orders", column := str "a" },
                { table := str "orders", column := str "b" }],
    expression := some (str "a + b"),
    is_aggregate := true }

/-- **C5** (witness): merging two concrete lineages of the same name:
the duplicate `orders.a` is skipped, `orders.b` appended, the expression
recorded, confidence dropped to `0.9`, and the aggregation flag of
`other` is not copied. -/
theorem claim_C5_witness :
    (ColumnLineage.mergeFrom mergeSelf0 mergeOther0).map
      (fun m => (m.sources, m.altExpressions, m.confidence, m.is_aggregate))
    = .ok ([{ table := str "orders", column := str "a" },
            { table := str "orders", column := str "b" }],
           [str "a + b"], 9 / 10, false) := by
  obtain ⟨m, hm, _, hsrc, _, _, _, halt, hconf, hagg, _⟩ :=
    (claim_C5_amended mergeSelf0 mergeOther0).2 rfl
  rw [hm]
  simp only [Except.map]
  rw [hsrc, halt, hconf, hagg]
  simp only [Except.ok.injEq, Prod.mk.injEq]
  refine ⟨rfl, rfl, ?_, rfl⟩
  norm_num [mergeSelf0, mergeOther0]

/-! ## Claim C7: resolver confidence scores

The first table of `uniqueTablesList` is the first table in FROM-clause
order; the lemmas below show the resolution-order sort keeps it first. -/

theorem pyDictSet_keys {α : Type} (d : List (PyStr × α)) (k : PyStr) (v : α) :
    (pyDictSet d k v).map (·.1)
      = if k ∈ d.map (·.1) then d.map (·.1) else d.map (·.1) ++ [k] := by
  induction d with
  | nil => simp [pyDictSet]
  | cons e rest ih =>
    obtain ⟨k1, v1⟩ := e
    by_cases h : k1 = k
    · simp [pyDictSet, h]
    · have hne : ¬ k = k1 := fun hk => h hk.symm
      by_cases hmem : k ∈ rest.map (·.1)
      · simp [pyDictSet, h, ih, hmem, hne]
      · simp [pyDictSet, h, ih, hmem, hne]

theorem keyedFold_keys (l : List TableRef) :
    ∀ d : List (PyStr × TableRef),
      ((l.foldl (fun acc t => pyDictSet acc t.table t) d).map (·.1))
        = l.foldl (fun ks t => if t.table ∈ ks then ks else ks ++ [t.table])
            (d.map (·.1)) := by
  induction l with
  | nil => intro d; rfl
  | cons t rest ih =>
    intro d
    simp only [List.foldl_cons]
    rw [ih (pyDictSet d t.table t), pyDictSet_keys]

theorem pyDictSet_value_key (d : List (PyStr × TableRef)) (t : TableRef)
    (hd : ∀ e ∈ d, (e : PyStr × TableRef).2.table = e.1) :
    ∀ e ∈ pyDictSet d t.table t, (e : PyStr × TableRef).2.table = e.1 := by
  induction d with
  | nil =>
    intro e he
    simp only [pyDictSet, List.mem_singleton] at he
    subst he
    rfl
  | cons p rest ih =>
    obtain ⟨k1, v1⟩ := p
    intro e he
    by_cases h : k1 = t.table
    · simp only [pyDictSet, if_pos h] at he
      rcases List.mem_cons.mp he with rfl | hmem
      · simpa using h.symm
      · exact hd e (List.mem_cons_of_mem _ hmem)
    · simp only [pyDictSet, if_neg h] at he
      rcases List.mem_cons.mp he with rfl | hmem
      · exact hd _ (List.mem_cons_self _ _)
      · exact ih (fun x hx => hd x (List.mem_cons_of_mem _ hx)) e hmem

theorem keyedFold_value_key (l : List TableRef) :
    ∀ d : List (PyStr × TableRef),
      (∀ e ∈ d, (e : PyStr × TableRef).2.table = e.1) →
      ∀ e ∈ l.foldl (fun acc t => pyDictSet acc t.table t) d,
        (e : PyStr × TableRef).2.table = e.1 := by
  induction l with
  | nil => intro d hd; exact hd
  | cons t rest ih =>
    intro d hd
    exact ih _ (pyDictSet_value_key d t hd)

/-- The unique-tables list and the resolution order carry the same table
names in the same sequence. -/
theorem uniqueTablesList_map_table (sc : ScopeM) :
    (uniqueTablesList sc).map (·.table) = tableResolutionOrder sc := by
  unfold uniqueTablesList tableResolutionOrder pyDictValues
  have hvk := keyedFold_value_key (sc.tables.map (·.2)) [] (by intro e he; cases he)
  have hmap :
      ((sc.tables.map (·.2)).foldl (fun acc t => pyDictSet acc t.table t) []).map (·.2.table)
        = ((sc.tables.map (·.2)).foldl (fun acc t => pyDictSet acc t.table t) []).map (·.1) :=
    List.map_congr_left fun e he => hvk e he
  rw [List.map_map]
  rw [show ((·.table) ∘ (·.2) : PyStr × TableRef → PyStr) = (·.2.table) from rfl]
  rw [hmap, keyedFold_keys]
  simp [List.foldl_map]

theorem stableInsertBy_cons_of_not_lt {α : Type} (key : α → Nat) (y x : α)
    (acc : List α) (h : ¬ key y < key x) :
    stableInsertBy key y (x :: acc) = x :: stableInsertBy key y acc := by
  simp [stableInsertBy, h]

theorem foldl_stableInsert_keep_head {α : Type} (key : α → Nat) (x : α)
    (hx : key x = 0) (l : List α) :
    ∀ acc, l.foldl (fun a y => stableInsertBy key y a) (x :: acc)
      = x :: l.foldl (fun a y => stableInsertBy key y a) acc := by
  induction l with
  | nil => intro acc; rfl
  | cons y rest ih =>
    intro acc
    simp only [List.foldl_cons]
    rw [stableInsertBy_cons_of_not_lt key y x acc (by omega)]
    exact ih _

/-- A head of key `0` stays first under the stable sort. -/
theorem stableSortBy_cons_of_key_zero {α : Type} (key : α → Nat) (x : α)
    (xs : List α) (hx : key x = 0) :
    stableSortBy key (x :: xs) = x :: stableSortBy key xs := by
  unfold stableSortBy
  simp only [List.foldl_cons]
  rw [show stableInsertBy key x [] = [x] from rfl]
  exact foldl_stableInsert_keep_head key x hx xs []

theorem ambiguityTableList_none (sc : ScopeM) :
    ambiguityTableList sc none = uniqueTablesList sc := by
  unfold ambiguityTableList
  simp

theorem orderKey_head (order : List PyStr) (tr : TableRef)
    (h : ∃ rest, order = tr.table :: rest) : orderKey order tr = 0 := by
  rcases h with ⟨rest, rfl⟩
  simp [orderKey, List.findIdx?]

/-- **C7**: confidence scores of unqualified column resolution.  With
exactly one unique table in scope: `1.0` when a schema provider confirms
the column, `0.95` with no provider, `0.3` (plus a warning) when the
schema lacks the column and validation is off.  With multiple candidate
tables and no provider, the `Warn` policy returns the first table in
FROM-clause order (the head of the unique-tables list) with confidence
`0.6` and a recorded warning, and the `Ignore` policy returns it with
confidence `0.5`; on the ambiguous path with a provider the `Ignore`
policy yields confidence `0.8` (and `Warn` yields `0.6` plus a warning)
for the first candidate after the resolution-order sort. -/
theorem claim_C7 (sc : ScopeM) (cfg : LineageConfig) (f : SchemaFn)
    (col : PyStr) (tr : TableRef) (hcol : col ≠ [])
    (hreq : cfg.requireTableQualifier = false) :
    (uniqueTablesList sc = [tr] → f tr.toQualifiedName col = true →
      resolveColumnWithInference sc cfg (some f) col none
        = .ok (refOf tr col, 1, []))
    ∧ (uniqueTablesList sc = [tr] →
      resolveColumnWithInference sc cfg none col none
        = .ok (refOf tr col, 95 / 100, []))
    ∧ (uniqueTablesList sc = [tr] → f tr.toQualifiedName col = false →
      cfg.schema_validation = false →
      resolveColumnWithInference sc cfg (some f) col none
        = .ok (refOf tr col, 3 / 10, [str "schema missing warning"]))
    ∧ (∀ r2 rest, uniqueTablesList sc = tr :: r2 :: rest →
      cfg.on_ambiguity = .warn →
      resolveColumnWithInference sc cfg none col none
        = .ok (refOf tr col, 6 / 10, [str "ambiguity warning"]))
    ∧ (∀ r2 rest, uniqueTablesList sc = tr :: r2 :: rest →
      cfg.on_ambiguity = .ignore →
      resolveColumnWithInference sc cfg none col none
        = .ok (refOf tr col, 5 / 10, []))
    ∧ (∀ twc rest, cfg.on_ambiguity = .ignore →
      stableSortBy (orderKey (tableResolutionOrder sc)) (ambiguityTableList sc twc)
        = tr :: rest →
      handleAmbiguousColumnWithConfidence sc cfg true twc col
        = .ok (refOf tr col, 8 / 10, []))
    ∧ (∀ twc rest, cfg.on_ambiguity = .warn →
      stableSortBy (orderKey (tableResolutionOrder sc)) (ambiguityTableList sc twc)
        = tr :: rest →
      handleAmbiguousColumnWithConfidence sc cfg true twc col
        = .ok (refOf tr col, 6 / 10, [str "ambiguity warning"])) := by
  have hne : ¬ col.isEmpty = true := by simpa using hcol
  have hsorthead : ∀ r2 rest, uniqueTablesList sc = tr :: r2 :: rest →
      ∃ tl, stableSortBy (orderKey (tableResolutionOrder sc)) (uniqueTablesList sc)
        = tr :: tl := by
    intro r2 rest huniq
    have horder : tableResolutionOrder sc = tr.table :: (r2 :: rest).map (·.table) := by
      rw [← uniqueTablesList_map_table, huniq]
      rfl
    have hkey : orderKey (tableResolutionOrder sc) tr = 0 :=
      orderKey_head _ _ ⟨_, horder⟩
    rw [huniq, stableSortBy_cons_of_key_zero _ _ _ hkey]
    exact ⟨_, rfl⟩
  refine ⟨?_, ?_, ?_, ?_, ?_, ?_, ?_⟩
  · intro huniq hf
    simp [resolveColumnWithInference, hne, truthy, hreq, huniq, hf]
  · intro huniq
    simp [resolveColumnWithInference, hne, truthy, hreq, huniq]
  · intro huniq hf hval
    simp [resolveColumnWithInference, hne, truthy, hreq, huniq, hf, hval]
  · intro r2 rest huniq hamb
    rcases hsorthead r2 rest huniq with ⟨tl, hsort⟩
    simp only [resolveColumnWithInference]
    simp only [hne, Bool.false_eq_true, if_false, truthy, hreq, huniq]
    unfold handleAmbiguousColumnWithConfidence
    rw [ambiguityTableList_none, hsort, hamb]
    rfl
  · intro r2 rest huniq hamb
    rcases hsorthead r2 rest huniq with ⟨tl, hsort⟩
    simp only [resolveColumnWithInference]
    simp only [hne, Bool.false_eq_true, if_false, truthy, hreq, huniq]
    unfold handleAmbiguousColumnWithConfidence
    rw [ambiguityTableList_none, hsort, hamb]
    rfl
  · intro twc rest hamb hsort
    unfold handleAmbiguousColumnWithConfidence
    rw [hsort, hamb]
    rfl
  · intro twc rest hamb hsort
    unfold handleAmbiguousColumnWithConfidence
    rw [hsort, hamb]
    rfl

/-- `orders o` as the resolver sees it. -/
def trOrders : TableRef := { table := str "orders", tblAlias := some (str "o") }

/-- `customers c`. -/
def trCust : TableRef := { table := str "customers", tblAlias := some (str "c") }

/-- A scope with the single table `orders` (registered under name and
alias). -/
def scSingle : ScopeM :=
  { tables := [(str "orders", trOrders), (str "o", trOrders)] }

/-- A scope with two tables, `orders` before `customers` in FROM order. -/
def scTwo : ScopeM :=
  { tables := [(str "orders", trOrders), (str "o", trOrders),
               (str "customers", trCust), (str "c", trCust)] }

/-- A schema where only `orders.id` exists. -/
def schemaOrdersId : SchemaFn :=
  fun t c => decide (t = str "orders" ∧ c = str "id")

/-- **C7** (witness): the six confidence scores at concrete scopes:
`1.0` / `0.95` / `0.3` for a single-table scope, `0.6` (warn) and `0.5`
(ignore, no schema) picking `orders` — the first FROM-clause table — in a
two-table scope, and `0.8` (ignore, schema present) on the ambiguous
path. -/
theorem claim_C7_witness :
    resolveColumnWithInference scSingle {} (some schemaOrdersId) (str "id") none
      = .ok (refOf trOrders (str "id"), 1, [])
    ∧ resolveColumnWithInference scSingle {} none (str "id") none
      = .ok (refOf trOrders (str "id"), 95 / 100, [])
    ∧ resolveColumnWithInference scSingle {} (some schemaOrdersId) (str "ghost") none
      = .ok (refOf trOrders (str "ghost"), 3 / 10, [str "schema missing warning"])
    ∧ resolveColumnWithInference scTwo { on_ambiguity := .warn } none (str "id") none
      = .ok (refOf trOrders (str "id"), 6 / 10, [str "ambiguity warning"])
    ∧ resolveColumnWithInference scTwo { on_ambiguity := .ignore } none (str "id") none
      = .ok (refOf trOrders (str "id"), 5 / 10, [])
    ∧ handleAmbiguousColumnWithConfidence scTwo { on_ambiguity := .ignore } true
        (some [str "orders", str "customers"]) (str "id")
      = .ok (refOf trOrders (str "id"), 8 / 10, []) :=
  ⟨(claim_C7 scSingle {} schemaOrdersId (str "id") trOrders (by decide) rfl).1
      rfl rfl,
   (claim_C7 scSingle {} schemaOrdersId (str "id") trOrders (by decide) rfl).2.1
      rfl,
   (claim_C7 scSingle {} schemaOrdersId (str "ghost") trOrders (by decide) rfl).2.2.1
      rfl rfl rfl,
   (claim_C7 scTwo { on_ambiguity := .warn } schemaOrdersId (str "id") trOrders
      (by decide) rfl).2.2.2.1 trCust [] rfl rfl,
   (claim_C7 scTwo { on_ambiguity := .ignore } schemaOrdersId (str "id") trOrders
      (by decide) rfl).2.2.2.2.1 trCust [] rfl rfl,
   (claim_C7 scTwo { on_ambiguity := .ignore } schemaOrdersId (str "id") trOrders
      (by decide) rfl).2.2.2.2.2.1 (some [str "orders", str "customers"]) [trCust]
      rfl rfl⟩

/-! ## Claim C4: cycle-safe termination of `trace_to_source` -/

theorem dfsTrace_zero (reg : TableRegistry) (t c : PyStr)
    (curPath : LineagePath) (visited : List PyStr) (depth maxDepth : Nat) :
    dfsTrace reg 0 t c curPath visited depth maxDepth = [] := rfl

theorem dfsTrace_gt_maxDepth (reg : TableRegistry) (t c : PyStr)
    (curPath : LineagePath) (visited : List PyStr) (depth maxDepth : Nat)
    (h : depth > maxDepth) :
    ∀ fuel, dfsTrace reg fuel t c curPath visited depth maxDepth = [] := by
  intro fuel
  cases fuel with
  | zero => rfl
  | succ f => simp [dfsTrace, h]

theorem dfsTrace_visited (reg : TableRegistry) (t c : PyStr)
    (curPath : LineagePath) (visited : List PyStr) (depth maxDepth : Nat)
    (h : nodeKey t c ∈ visited) :
    ∀ fuel, dfsTrace reg fuel t c curPath visited depth maxDepth = [] := by
  intro fuel
  cases fuel with
  | zero => rfl
  | succ f =>
    rw [dfsTrace]
    by_cases hd : depth > maxDepth
    · simp [hd]
    · simp [hd, h]

/-- One-step unfolding of `dfsTrace` at positive fuel with both guards
passed. -/
theorem dfsTrace_step (reg : TableRegistry) (a : Nat) (t c : PyStr)
    (curPath : LineagePath) (visited : List PyStr) (depth maxDepth : Nat)
    (hd : ¬ depth > maxDepth) (hv : nodeKey t c ∉ visited) :
    dfsTrace reg (a + 1) t c curPath visited depth maxDepth
      = match reg.getTable t with
        | none => []
        | some td =>
          match td.getColumn c with
          | none => []
          | some cl =>
            if td.is_source_table then [curPath ++ [traceNode t c td cl]]
            else if cl.sources.isEmpty then [curPath ++ [traceNode t c td cl]]
            else
              (cl.sources.map fun s =>
                dfsTrace reg a s.table s.column (curPath ++ [traceNode t c td cl])
                  (nodeKey t c :: visited) (depth + 1) maxDepth).flatten := by
  rw [dfsTrace, if_neg hd, if_neg hv]

/-- Fuel-irrelevance for `dfsTrace`: once the fuel is at least
`maxDepth + 2 - depth`, its exact value is immaterial — i.e. the Python
recursion entered at depth `depth` returns within `maxDepth + 2 - depth`
nested frames. -/
theorem traceFuelIrrelevant_aux : ∀ n : Nat,
    ∀ reg t c curPath visited depth maxDepth f1 f2,
      maxDepth + 2 - depth = n → n ≤ f1 → n ≤ f2 →
      dfsTrace reg f1 t c curPath visited depth maxDepth
        = dfsTrace reg f2 t c curPath visited depth maxDepth := by
  intro n
  induction n with
  | zero =>
    intro reg t c curPath visited depth maxDepth f1 f2 hn _ _
    have hd : depth > maxDepth := by omega
    rw [dfsTrace_gt_maxDepth reg t c curPath visited depth maxDepth hd,
      dfsTrace_gt_maxDepth reg t c curPath visited depth maxDepth hd]
  | succ m ih =>
    intro reg t c curPath visited depth maxDepth f1 f2 hn h1 h2
    by_cases hd : depth > maxDepth
    · rw [dfsTrace_gt_maxDepth reg t c curPath visited depth maxDepth hd,
        dfsTrace_gt_maxDepth reg t c curPath visited depth maxDepth hd]
    · by_cases hv : nodeKey t c ∈ visited
      · rw [dfsTrace_visited reg t c curPath visited depth maxDepth hv,
          dfsTrace_visited reg t c curPath visited depth maxDepth hv]
      · obtain ⟨a, rfl⟩ : ∃ a, f1 = a + 1 := ⟨f1 - 1, by omega⟩
        obtain ⟨b, rfl⟩ : ∃ b, f2 = b + 1 := ⟨f2 - 1, by omega⟩
        rw [dfsTrace_step reg a t c curPath visited depth maxDepth hd hv,
          dfsTrace_step reg b t c curPath visited depth maxDepth hd hv]
        cases reg.getTable t with
        | none => rfl
        | some td =>
          dsimp only
          cases td.getColumn c with
          | none => rfl
          | some cl =>
            dsimp only
            by_cases hsrc : td.is_source_table = true
            · simp only [hsrc, if_true, ite_true]
            · simp only [hsrc, Bool.false_eq_true, if_false, ite_false]
              by_cases hempty : cl.sources.isEmpty = true
              · simp only [hempty, if_true, ite_true]
              · simp only [hempty, Bool.false_eq_true, if_false, ite_false]
                exact congrArg List.flatten (List.map_congr_left fun s _ =>
                  ih reg s.table s.column _ _ (depth + 1) maxDepth a b
                    (by omega) (by omega) (by omega))

/-- **C4**: `trace_to_source` terminates on every registry, cyclic ones
included: a node whose `table.column` key is in the branch's `visited` set
ends that branch with no paths; a branch whose depth exceeds `max_depth`
is cut; each source is explored with its own copy of the path and of the
visited set and the per-branch results are concatenated; and the result is
already stable at fuel `maxDepth + 2 - depth` — the recursion never needs
more than `max_depth + 1` nested calls below the entry. -/
theorem claim_C4 (reg : TableRegistry) (t c : PyStr) (curPath : LineagePath)
    (visited : List PyStr) (depth maxDepth : Nat) :
    (nodeKey t c ∈ visited →
      ∀ fuel, dfsTrace reg fuel t c curPath visited depth maxDepth = [])
    ∧ (depth > maxDepth →
      ∀ fuel, dfsTrace reg fuel t c curPath visited depth maxDepth = [])
    ∧ (∀ f td cl, reg.getTable t = some td → td.getColumn c = some cl →
      ¬ depth > maxDepth → nodeKey t c ∉ visited →
      td.is_source_table = false → cl.sources.isEmpty = false →
      dfsTrace reg (f + 1) t c curPath visited depth maxDepth
        = (cl.sources.map fun s =>
            dfsTrace reg f s.table s.column (curPath ++ [traceNode t c td cl])
              (nodeKey t c :: visited) (depth + 1) maxDepth).flatten)
    ∧ (∀ f1 f2, maxDepth + 2 - depth ≤ f1 → maxDepth + 2 - depth ≤ f2 →
      dfsTrace reg f1 t c curPath visited depth maxDepth
        = dfsTrace reg f2 t c curPath visited depth maxDepth)
    ∧ (∀ f, maxDepth + 2 ≤ f →
      dfsTrace reg f t c [] [] 0 maxDepth
        = dfsTrace reg (maxDepth + 2) t c [] [] 0 maxDepth) := by
  refine ⟨dfsTrace_visited reg t c curPath visited depth maxDepth,
    dfsTrace_gt_maxDepth reg t c curPath visited depth maxDepth, ?_, ?_, ?_⟩
  · intro f td cl hgt hgc hdep hvis hsrc hempty
    rw [dfsTrace_step reg f t c curPath visited depth maxDepth hdep hvis]
    simp [hgt, hgc, hsrc, hempty]
  · intro f1 f2 h1 h2
    exact traceFuelIrrelevant_aux (maxDepth + 2 - depth) reg t c curPath
      visited depth maxDepth f1 f2 rfl h1 h2
  · intro f hf
    exact traceFuelIrrelevant_aux (maxDepth + 2) reg t c [] [] 0 maxDepth
      f (maxDepth + 2) rfl (by omega) (by omega)

/-- A registry whose `sources` edges form a cycle:
`x.a → y.b → x.a`. -/
def regCyclic : TableRegistry :=
  { tables := [
      (str "x",
        { name := str "x",
          columns := [(str "a",
            { name := str "a",
              sources := [{ table := str "y", column := str "b" }] })] }),
      (str "y",
        { name := str "y",
          columns := [(str "b",
            { name := str "b",
              sources := [{ table := str "x", column := str "a" }] })] })],
    statementCounter := 0 }

/-- **C4** (witness): on the cyclic registry the trace terminates (the
cycle yields no completed path rather than diverging); a visited key or an
exceeded depth cuts the branch; and raising the fuel far beyond
`maxDepth + 2` does not change the result. -/
theorem claim_C4_witness :
    traceToSource regCyclic (str "x") (str "a") 100 = .ok []
    ∧ dfsTrace regCyclic 7 (str "x") (str "a") []
        [nodeKey (str "x") (str "a")] 0 100 = []
    ∧ dfsTrace regCyclic 7 (str "x") (str "a") [] [] 101 100 = []
    ∧ dfsTrace regCyclic 1000 (str "x") (str "a") [] [] 0 3
        = dfsTrace regCyclic (3 + 2) (str "x") (str "a") [] [] 0 3 :=
  ⟨rfl,
   (claim_C4 regCyclic (str "x") (str "a") []
      [nodeKey (str "x") (str "a")] 0 100).1 (by decide) 7,
   (claim_C4 regCyclic (str "x") (str "a") [] [] 101 100).2.1 (by omega) 7,
   (claim_C4 regCyclic (str "x") (str "a") [] [] 0 3).2.2.2.2 1000 (by omega)⟩

/-! ## Claim C3: `find_impact` versus sources-edge reachability -/

/-- All `(table_name, column_name)` nodes stored in the registry, in
iteration order. -/
def registryNodes (reg : TableRegistry) : List (PyStr × PyStr) :=
  reg.tables.flatMap fun e => e.2.columns.map fun ce => (e.2.name, ce.1)

/-- The nodes the impact traversal can ever visit: the start node plus the
registry nodes. -/
def allNodes (reg : TableRegistry) (t c : PyStr) : List (PyStr × PyStr) :=
  (t, c) :: registryNodes reg

/-- The visited-set keys of those nodes, as a finite set. -/
def allKeysF (reg : TableRegistry) (t c : PyStr) : Finset PyStr :=
  ((allNodes reg t c).map fun p => nodeKey p.1 p.2).toFinset

/-- `p` is downstream of `src` by one or more `sources` edges: an edge
from `q` to `p` exists when `p`'s lineage lists a source equal to `q` —
that is, `p ∈ matchesOf reg q.1 q.2`. -/
inductive ImpactReaches (reg : TableRegistry) (src : PyStr × PyStr) :
    PyStr × PyStr → Prop where
  | base (p : PyStr × PyStr) : p ∈ matchesOf reg src.1 src.2 →
      ImpactReaches reg src p
  | step (q p : PyStr × PyStr) : ImpactReaches reg src q →
      p ∈ matchesOf reg q.1 q.2 → ImpactReaches reg src p

theorem matchesOf_subset_registryNodes (reg : TableRegistry) (t c : PyStr) :
    ∀ p ∈ matchesOf reg t c, p ∈ registryNodes reg := by
  intro p hp
  simp only [matchesOf, TableRegistry.getAllTables, pyDictValues, List.mem_flatMap,
    List.mem_map, List.mem_filterMap] at hp
  rcases hp with ⟨td, ⟨e, he, rfl⟩, ce, hce, s, _, hs⟩
  have hps : p = (e.2.name, ce.1) := by
    by_cases hcond : s.table = t ∧ s.column = c
    · exact ((by simpa [hcond] using hs : (e.2.name, ce.1) = p)).symm
    · simp [hcond] at hs
  subst hps
  simp only [registryNodes, List.mem_flatMap, List.mem_map]
  exact ⟨e, he, ⟨ce, hce, rfl⟩⟩

/-- Soundness invariant of `_dfs_impact`: starting from a node downstream
of (or equal to) the start node, every appended `ColumnRef` is downstream
of the start node. -/
theorem dfsImpact_sound (reg : TableRegistry) (t0 c0 : PyStr) :
    ∀ fuel (cur : PyStr × PyStr) (st : ImpactState),
      (cur = (t0, c0) ∨ ImpactReaches reg (t0, c0) cur) →
      (∀ r ∈ st.1, ImpactReaches reg (t0, c0) (r.table, r.column)) →
      ∀ r ∈ (dfsImpact reg fuel cur.1 cur.2 st).1,
        ImpactReaches reg (t0, c0) (r.table, r.column) := by
  intro fuel
  induction fuel with
  | zero => intro cur st _ hst r hr; exact hst r hr
  | succ f ih =>
    intro cur st hcur hst r hr
    rw [dfsImpact] at hr
    by_cases hv : nodeKey cur.1 cur.2 ∈ st.2
    · rw [if_pos hv] at hr
      exact hst r hr
    · rw [if_neg hv] at hr
      -- the fold over the hits of `cur` preserves the invariant
      have hfold : ∀ (hits : List (PyStr × PyStr)) (st2 : ImpactState),
          (∀ h ∈ hits, h ∈ matchesOf reg cur.1 cur.2) →
          (∀ r2 ∈ st2.1, ImpactReaches reg (t0, c0) (r2.table, r2.column)) →
          ∀ r2 ∈ (hits.foldl
            (fun st3 hit => dfsImpact reg f hit.1 hit.2
              (st3.1 ++ [{ table := hit.1, column := hit.2 }], st3.2)) st2).1,
            ImpactReaches reg (t0, c0) (r2.table, r2.column) := by
        intro hits
        induction hits with
        | nil => intro st2 _ hst2 r2 hr2; exact hst2 r2 hr2
        | cons hit rest ihh =>
          intro st2 hhits hst2 r2 hr2
          rw [List.foldl_cons] at hr2
          have hhit : hit ∈ matchesOf reg cur.1 cur.2 :=
            hhits hit (List.mem_cons_self _ _)
          have hreach : ImpactReaches reg (t0, c0) hit := by
            rcases hcur with rfl | hcur
            · exact ImpactReaches.base hit hhit
            · exact ImpactReaches.step cur hit hcur hhit
          refine ihh _ (fun h hh => hhits h (List.mem_cons_of_mem _ hh)) ?_ r2 hr2
          intro r3 hr3
          refine ih hit (st2.1 ++ [{ table := hit.1, column := hit.2 }], st2.2)
            (Or.inr hreach) ?_ r3 hr3
          intro r4 hr4
          rcases List.mem_append.mp hr4 with h4 | h4
          · exact hst2 r4 h4
          · rcases List.mem_singleton.mp h4 with rfl
            exact hreach
      exact hfold (matchesOf reg cur.1 cur.2) (st.1, insert (nodeKey cur.1 cur.2) st.2)
        (fun h hh => hh) hst r hr

/-- Node `q` is fully processed in state `st`: each of its downstream
hits has been appended to `impacted` and its key is in `visited`. -/
def impactProcessed (reg : TableRegistry) (st : ImpactState)
    (q : PyStr × PyStr) : Prop :=
  ∀ p ∈ matchesOf reg q.1 q.2,
    (∃ r ∈ st.1, r.table = p.1 ∧ r.column = p.2) ∧ nodeKey p.1 p.2 ∈ st.2

theorem impactProcessed_mono (reg : TableRegistry) (st1 st2 : ImpactState)
    (q : PyStr × PyStr) (h1 : ∀ r ∈ st1.1, r ∈ st2.1) (h2 : ∀ k ∈ st1.2, k ∈ st2.2)
    (hp : impactProcessed reg st1 q) : impactProcessed reg st2 q := by
  intro p hpm
  rcases hp p hpm with ⟨⟨r, hr, hrt⟩, hk⟩
  exact ⟨⟨r, h1 r hr, hrt⟩, h2 _ hk⟩

theorem reaches_mem_registryNodes (reg : TableRegistry) (src : PyStr × PyStr)
    (p : PyStr × PyStr) (h : ImpactReaches reg src p) : p ∈ registryNodes reg := by
  induction h with
  | base p hp => exact matchesOf_subset_registryNodes reg src.1 src.2 p hp
  | step q p _ hp _ => exact matchesOf_subset_registryNodes reg q.1 q.2 p hp

/-- Completeness engine for `_dfs_impact`: with fuel at least one more
than the number of unvisited node keys, the traversal from a node visits
it, only grows its state, and leaves every newly-visited key fully
processed (for some node carrying that key). -/
theorem dfsImpact_post (reg : TableRegistry) (t0 c0 : PyStr) :
    ∀ fuel (cur : PyStr × PyStr) (st : ImpactState),
      cur ∈ allNodes reg t0 c0 →
      (allKeysF reg t0 c0 \ st.2).card + 1 ≤ fuel →
      (∀ k ∈ st.2, k ∈ (dfsImpact reg fuel cur.1 cur.2 st).2)
      ∧ (∀ r ∈ st.1, r ∈ (dfsImpact reg fuel cur.1 cur.2 st).1)
      ∧ nodeKey cur.1 cur.2 ∈ (dfsImpact reg fuel cur.1 cur.2 st).2
      ∧ (∀ k ∈ (dfsImpact reg fuel cur.1 cur.2 st).2, k ∈ st.2
          ∨ ∃ q2 ∈ allNodes reg t0 c0, nodeKey q2.1 q2.2 = k
              ∧ impactProcessed reg (dfsImpact reg fuel cur.1 cur.2 st) q2) := by
  intro fuel
  induction fuel with
  | zero => intro cur st _ hfuel; omega
  | succ f ih =>
    intro cur st hcur hfuel
    rw [dfsImpact]
    by_cases hv : nodeKey cur.1 cur.2 ∈ st.2
    · simp only [if_pos hv]
      exact ⟨fun k hk => hk, fun r hr => hr, hv, fun k hk => Or.inl hk⟩
    · simp only [if_neg hv]
      have hKcur : nodeKey cur.1 cur.2 ∈ allKeysF reg t0 c0 := by
        simp only [allKeysF, List.mem_toFinset, List.mem_map]
        exact ⟨cur, hcur, rfl⟩
      -- processing any state above `insert key st.2` has strictly fewer
      -- unvisited keys
      have hdrop : ∀ V : Finset PyStr, insert (nodeKey cur.1 cur.2) st.2 ⊆ V →
          (allKeysF reg t0 c0 \ V).card + 1 ≤ f := by
        intro V hV
        have hsub : allKeysF reg t0 c0 \ V
            ⊆ (allKeysF reg t0 c0 \ st.2).erase (nodeKey cur.1 cur.2) := by
          intro k hk
          rcases Finset.mem_sdiff.mp hk with ⟨hk1, hk2⟩
          refine Finset.mem_erase.mpr ⟨?_, Finset.mem_sdiff.mpr ⟨hk1, ?_⟩⟩
          · intro hkk
            exact hk2 (hV (hkk ▸ Finset.mem_insert_self _ _))
          · intro hkst
            exact hk2 (hV (Finset.mem_insert_of_mem hkst))
        have hc1 := Finset.card_le_card hsub
        have hc2 : ((allKeysF reg t0 c0 \ st.2).erase (nodeKey cur.1 cur.2)).card
            = (allKeysF reg t0 c0 \ st.2).card - 1 :=
          Finset.card_erase_of_mem (Finset.mem_sdiff.mpr ⟨hKcur, hv⟩)
        have hc3 : 1 ≤ (allKeysF reg t0 c0 \ st.2).card :=
          Finset.card_pos.mpr ⟨_, Finset.mem_sdiff.mpr ⟨hKcur, hv⟩⟩
        omega
      have hfold : ∀ (hits : List (PyStr × PyStr)) (st2 : ImpactState),
          (∀ h ∈ hits, h ∈ matchesOf reg cur.1 cur.2) →
          insert (nodeKey cur.1 cur.2) st.2 ⊆ st2.2 →
          (∀ k ∈ st2.2, k ∈ (hits.foldl
            (fun st3 hit => dfsImpact reg f hit.1 hit.2
              (st3.1 ++ [{ table := hit.1, column := hit.2 }], st3.2)) st2).2)
          ∧ (∀ r ∈ st2.1, r ∈ (hits.foldl
            (fun st3 hit => dfsImpact reg f hit.1 hit.2
              (st3.1 ++ [{ table := hit.1, column := hit.2 }], st3.2)) st2).1)
          ∧ (∀ h ∈ hits,
            (∃ r ∈ (hits.foldl
              (fun st3 hit => dfsImpact reg f hit.1 hit.2
                (st3.1 ++ [{ table := hit.1, column := hit.2 }], st3.2)) st2).1,
              r.table = h.1 ∧ r.column = h.2)
            ∧ nodeKey h.1 h.2 ∈ (hits.foldl
              (fun st3 hit => dfsImpact reg f hit.1 hit.2
                (st3.1 ++ [{ table := hit.1, column := hit.2 }], st3.2)) st2).2)
          ∧ (∀ k ∈ (hits.foldl
              (fun st3 hit => dfsImpact reg f hit.1 hit.2
                (st3.1 ++ [{ table := hit.1, column := hit.2 }], st3.2)) st2).2,
            k ∈ st2.2 ∨ ∃ q2 ∈ allNodes reg t0 c0, nodeKey q2.1 q2.2 = k
              ∧ impactProcessed reg (hits.foldl
                (fun st3 hit => dfsImpact reg f hit.1 hit.2
                  (st3.1 ++ [{ table := hit.1, column := hit.2 }], st3.2)) st2) q2) := by
        intro hits
        induction hits with
        | nil =>
          intro st2 _ _
          exact ⟨fun k hk => hk, fun r hr => hr, fun h hh => absurd hh (by simp),
            fun k hk => Or.inl hk⟩
        | cons hit rest ihh =>
          intro st2 hhits hsub2
          simp only [List.foldl_cons]
          have hhit : hit ∈ matchesOf reg cur.1 cur.2 :=
            hhits hit (List.mem_cons_self _ _)
          have hhitAll : hit ∈ allNodes reg t0 c0 :=
            List.mem_cons_of_mem _
              (matchesOf_subset_registryNodes reg cur.1 cur.2 hit hhit)
          obtain ⟨P1, P2, P3, P4⟩ :=
            ih hit (st2.1 ++ [{ table := hit.1, column := hit.2 }], st2.2)
              hhitAll (hdrop st2.2 hsub2)
          obtain ⟨F1, F2, F3, F4⟩ :=
            ihh (dfsImpact reg f hit.1 hit.2
                (st2.1 ++ [{ table := hit.1, column := hit.2 }], st2.2))
              (fun h hh => hhits h (List.mem_cons_of_mem _ hh))
              (fun k hk => P1 k (hsub2 hk))
          refine ⟨fun k hk => F1 k (P1 k hk),
            fun r hr => F2 r (P2 r (List.mem_append_left _ hr)), ?_, ?_⟩
          · intro h hh
            rcases List.mem_cons.mp hh with rfl | hh2
            · refine ⟨⟨{ table := h.1, column := h.2 }, ?_, rfl, rfl⟩, F1 _ P3⟩
              exact F2 _ (P2 _ (List.mem_append_right _ (List.mem_singleton.mpr rfl)))
            · exact F3 h hh2
          · intro k hk
            rcases F4 k hk with hk3 | ⟨q2, hq2, hkey, hp⟩
            · rcases P4 k hk3 with hk2 | ⟨q2, hq2, hkey, hp⟩
              · exact Or.inl hk2
              · exact Or.inr ⟨q2, hq2, hkey,
                  impactProcessed_mono reg _ _ q2 (fun r hr => F2 r hr)
                    (fun k2 hk2 => F1 k2 hk2) hp⟩
            · exact Or.inr ⟨q2, hq2, hkey, hp⟩
      obtain ⟨F1, F2, F3, F4⟩ :=
        hfold (matchesOf reg cur.1 cur.2) (st.1, insert (nodeKey cur.1 cur.2) st.2)
          (fun h hh => hh) (fun k hk => hk)
      refine ⟨fun k hk => F1 k (Finset.mem_insert_of_mem hk),
        fun r hr => F2 r hr,
        F1 _ (Finset.mem_insert_self _ _), ?_⟩
      intro k hk
      rcases F4 k hk with hk2 | h2
      · rcases Finset.mem_insert.mp hk2 with rfl | hk3
        · exact Or.inr ⟨cur, hcur, rfl, fun p hp => F3 p hp⟩
        · exact Or.inl hk3
      · exact Or.inr h2

theorem findImpact_ok (reg : TableRegistry) (t c : PyStr) (maxDepth : Nat)
    (l : List ColumnRef) (h : findImpact reg t c maxDepth = .ok l) :
    l = (dfsImpact reg (maxDepth + 1) t c ([], ∅)).1 := by
  unfold findImpact at h
  cases hgt : reg.getTable t with
  | none =>
    rw [hgt] at h
    exact absurd h (by simp)
  | some td =>
    rw [hgt] at h
    dsimp only at h
    by_cases hcond : (!td.is_source_table && !td.hasColumn c) = true
    · rw [if_pos hcond] at h
      exact absurd h (by simp)
    · rw [if_neg hcond] at h
      cases h
      rfl

/-- A registry on which `find_impact` returns duplicates: source `t`,
`a.x ← t.c`, and `b.y ← a.x, t.c`. -/
def regDup : TableRegistry :=
  { tables := [
      (str "t",
        { name := str "t", table_type := some TableType.external,
          is_source_table := true }),
      (str "a",
        { name := str "a",
          columns := [(str "x",
            { name := str "x",
              sources := [{ table := str "t", column := str "c" }] })] }),
      (str "b",
        { name := str "b",
          columns := [(str "y",
            { name := str "y",
              sources := [{ table := str "a", column := str "x" },
                          { table := str "t", column := str "c" }] })] })],
    statementCounter := 0 }

/-- **C3** (counterexample): `find_impact("t", "c")` on `regDup` returns
`b.y` twice — once while recursing below `a.x` and once for the direct
edge — so the returned list is not duplicate-free as the claim states;
also, `(t, c)` itself (reachable by *zero* edges) is not returned. -/
theorem claim_C3_counterexample :
    findImpact regDup (str "t") (str "c") 100
      = .ok [{ table := str "a", column := str "x" },
             { table := str "b", column := str "y" },
             { table := str "b", column := str "y" }]
    ∧ ¬ ([{ table := str "a", column := str "x" },
          { table := str "b", column := str "y" },
          { table := str "b", column := str "y" }] : List ColumnRef).Nodup := by
  constructor
  · rfl
  · decide

/-- **C3** (amended): a successful `find_impact(T, c)` returns a list
that may contain duplicates; every entry reaches `(T, c)` by **one or
more** `sources` edges, and — provided the number of distinct
`table.column` nodes does not exceed `max_depth` and the `table.column`
key strings are collision-free over those nodes — every column reaching
`(T, c)` by one or more edges occurs in the list.  (`(T, c)` itself is
returned only when it lies on a cycle, i.e. reaches itself by at least
one edge.) -/
theorem claim_C3_amended (reg : TableRegistry) (t c : PyStr) (maxDepth : Nat)
    (l : List ColumnRef) (h : findImpact reg t c maxDepth = .ok l) :
    (∀ r ∈ l, ImpactReaches reg (t, c) (r.table, r.column))
    ∧ ((allKeysF reg t c).card ≤ maxDepth →
      (∀ p ∈ allNodes reg t c, ∀ q ∈ allNodes reg t c,
        nodeKey p.1 p.2 = nodeKey q.1 q.2 → p = q) →
      ∀ p, ImpactReaches reg (t, c) p →
        ∃ r ∈ l, r.table = p.1 ∧ r.column = p.2) := by
  have hl := findImpact_ok reg t c maxDepth l h
  subst hl
  constructor
  · intro r hr
    exact dfsImpact_sound reg t c (maxDepth + 1) (t, c) ([], ∅) (Or.inl rfl)
      (fun r2 hr2 => absurd hr2 (by simp)) r hr
  · intro hcard hinj p hp
    obtain ⟨P1, P2, P3, P4⟩ :=
      dfsImpact_post reg t c (maxDepth + 1) (t, c) ([], ∅)
        (List.mem_cons_self _ _)
        (by simpa using hcard)
    have hproc : ∀ q ∈ allNodes reg t c,
        nodeKey q.1 q.2 ∈ (dfsImpact reg (maxDepth + 1) t c ([], ∅)).2 →
        impactProcessed reg (dfsImpact reg (maxDepth + 1) t c ([], ∅)) q := by
      intro q hq hk
      rcases P4 _ hk with h0 | ⟨q2, hq2, hkey, hp2⟩
      · exact absurd h0 (by simp)
      · rcases hinj q2 hq2 q hq hkey with rfl
        exact hp2
    have main : ∀ p2, ImpactReaches reg (t, c) p2 →
        (∃ r ∈ (dfsImpact reg (maxDepth + 1) t c ([], ∅)).1,
          r.table = p2.1 ∧ r.column = p2.2)
        ∧ nodeKey p2.1 p2.2 ∈ (dfsImpact reg (maxDepth + 1) t c ([], ∅)).2 := by
      intro p2 hp2
      induction hp2 with
      | base p2 hpm => exact hproc (t, c) (List.mem_cons_self _ _) P3 p2 hpm
      | step q p2 hq hpm ihq =>
        exact hproc q
          (List.mem_cons_of_mem _ (reaches_mem_registryNodes reg (t, c) q hq))
          ihq.2 p2 hpm
    exact (main p hp).1

/-- **C3** (witness): the amended theorem on `regDup`: soundness for the
first returned entry, and completeness producing `b.y` from its two-edge
path `b.y → a.x → t.c`. -/
theorem claim_C3_amended_witness :
    ImpactReaches regDup (str "t", str "c") (str "a", str "x")
    ∧ ∃ r ∈ [({ table := str "a", column := str "x" } : ColumnRef),
             { table := str "b", column := str "y" },
             { table := str "b", column := str "y" }],
        r.table = str "b" ∧ r.column = str "y" := by
  have h := claim_C3_amended regDup (str "t") (str "c") 100
    [{ table := str "a", column := str "x" },
     { table := str "b", column := str "y" },
     { table := str "b", column := str "y" }] rfl
  refine ⟨h.1 { table := str "a", column := str "x" } (by decide), ?_⟩
  exact h.2 (by decide) (by decide) (str "b", str "y")
    (ImpactReaches.step (str "a", str "x") (str "b", str "y")
      (ImpactReaches.base (str "a", str "x") (by decide)) (by decide))

end LineageGlass
